import Mathlib

/-!
# The docker wrapper of `pkg/docker/docker.go`

A shallow embedding of the `Client` wrapper and of its two polling loops.

Everything the wrapper does to the outside world is recorded, in order, in a
history of events: sleeps, reads of the cancellation signal, calls on the engine
client, reads and closes of streams, and writes to the sink.  The engine and the
cancellation signal are external: each is a function of the history reached
when the program consults it. The history grows with every event, so no two
consultations happen at the same history: any sequence of responses, and a
signal triggered at any moment (also in the middle of a sweep), is an instance.

A line of the sink is one `fmt.Fprintf`; the text of a line may itself hold
newlines, as when the output of a command ends with one.

Go strings and byte slices are modelled by `String`; a slice of strings by the
list of its elements; a Go `(value, error)` pair by a pair whose second
component is `none` for a nil error.
-/

namespace Docker

/-- A Go error value. -/
structure Err where
  msg : String
deriving DecidableEq, Repr

/-- The fields of `types.Container` read by the wrapper. -/
structure Container where
  ID : String
  Command : String
deriving DecidableEq, Repr

/-- Modelled from the spec: `types.ContainerListOptions` is declared in the
engine-api dependency, not under src/. Its zero value is the "default/empty
options" of the spec. -/
structure ContainerListOptions where
  Quiet : Bool := false
  Size : Bool := false
  All : Bool := false
  Latest : Bool := false
  Since : String := ""
  Before : String := ""
  Limit : Int := 0
  Filter : List (String × List String) := []
deriving DecidableEq, Repr

/-- Modelled from the spec: `types.ExecConfig` is declared in the engine-api
dependency, not under src/. The wrapper sets `AttachStdout` and `Cmd`. -/
structure ExecConfig where
  User : String := ""
  Privileged : Bool := false
  Tty : Bool := false
  Container : String := ""
  AttachStdin : Bool := false
  AttachStderr : Bool := false
  AttachStdout : Bool := false
  Detach : Bool := false
  DetachKeys : String := ""
  Cmd : List String := []
deriving DecidableEq, Repr

/-- Modelled from the spec: `types.ContainerStartOptions` is declared in the
engine-api dependency, not under src/. -/
structure ContainerStartOptions where
  CheckpointID : String := ""
deriving DecidableEq, Repr

/-- Modelled from the spec: `types.ContainerLogsOptions` is declared in the
engine-api dependency, not under src/. The wrapper sets `ShowStdout` and
`ShowStderr`. -/
structure ContainerLogsOptions where
  ShowStdout : Bool := false
  ShowStderr : Bool := false
  Since : String := ""
  Timestamps : Bool := false
  Follow : Bool := false
  Tail : String := ""
deriving DecidableEq, Repr

/-- Modelled from the spec: `types.ContainerRemoveOptions` is declared in the
engine-api dependency, not under src/. -/
structure ContainerRemoveOptions where
  RemoveVolumes : Bool := false
  RemoveLinks : Bool := false
  Force : Bool := false
deriving DecidableEq, Repr

/-- Modelled from the spec: `types.ImageRemoveOptions` is declared in the
engine-api dependency, not under src/. -/
structure ImageRemoveOptions where
  Force : Bool := false
  PruneChildren : Bool := false
deriving DecidableEq, Repr

/-- Modelled from the spec: `types.VolumeCreateRequest` is declared in the
engine-api dependency, not under src/. -/
structure VolumeCreateRequest where
  Name : String := ""
  Driver : String := ""
  DriverOpts : List (String × String) := []
  Labels : List (String × String) := []
deriving DecidableEq, Repr

/-- The payload of `container.Config`, which the wrapper only passes on. -/
structure Config where
  raw : String
deriving DecidableEq, Repr

/-- The payload of `container.HostConfig`, which the wrapper only passes on. -/
structure HostConfig where
  raw : String
deriving DecidableEq, Repr

/-- The payload of `network.NetworkingConfig`; the wrapper always passes nil. -/
structure NetworkingConfig where
  raw : String
deriving DecidableEq, Repr

/-- The calls the wrapper makes on the engine client, each with the arguments
it carries besides `context.Background()`. -/
inductive Call where
  | ContainerList (options : ContainerListOptions)
  | ContainerCreate (config : Option Config) (hostConfig : Option HostConfig)
      (networkingConfig : Option NetworkingConfig) (containerName : String)
  | ContainerExecCreate (container : String) (config : ExecConfig)
  | ContainerExecAttach (execID : String) (config : ExecConfig)
  | ContainerExecInspect (execID : String)
  | ContainerInspect (containerID : String)
  | ContainerInspectWithRaw (containerID : String) (getSize : Bool)
  | ContainerStart (containerID : String) (options : ContainerStartOptions)
  | ContainerLogs (container : String) (options : ContainerLogsOptions)
  | ContainerRemove (containerID : String) (options : ContainerRemoveOptions)
  | ContainerStop (containerID : String) (timeout : Option Int)
  | ContainerWait (containerID : String)
  | ImageRemove (imageID : String) (options : ImageRemoveOptions)
  | VolumeCreate (options : VolumeCreateRequest)
  | VolumeRemove (volumeID : String)
deriving DecidableEq, Repr

/-- What the wrapper does to the outside world, one event per action. -/
inductive Event where
  /-- A completed `time.Sleep(d)`, `d` in nanoseconds. -/
  | sleep (d : Int)
  /-- The `select` on `ctx.Done()`, with what it observed. -/
  | check (done : Bool)
  /-- A call on the engine client. -/
  | call (c : Call)
  /-- An `ioutil.ReadAll` on a stream handed out by the engine. -/
  | readAll (stream : Nat)
  /-- A `Close` of a hijacked connection. -/
  | close (conn : Nat)
  /-- One `fmt.Fprintf` on the sink, with the text written. -/
  | write (s : String)
deriving DecidableEq, Repr

/-- The history of a run: its events, oldest first. -/
abbrev Hist := List Event

/-- The cancellation signal: whether `ctx.Done()` is closed at the moment the
program, having produced the given history, selects on it. -/
abbrev Ctx := Hist → Bool

/-- The `ID` of `types.ContainerCreateResponse`. -/
structure ContainerCreateResponse where
  ID : String
deriving DecidableEq, Repr

/-- The `ID` of `types.ContainerExecCreateResponse`. -/
structure ContainerExecCreateResponse where
  ID : String
deriving DecidableEq, Repr

/-- A `types.HijackedResponse`: the connection and the reader over it. -/
structure HijackedResponse where
  Conn : Nat
  Reader : Nat
deriving DecidableEq, Repr

/-- The `ExitCode` of `types.ContainerExecInspect`. -/
structure ContainerExecInspect where
  ExitCode : Int
deriving DecidableEq, Repr

/-- The `IPAddress` of `types.NetworkSettings`. -/
structure NetworkSettings where
  IPAddress : String
deriving DecidableEq, Repr

/-- The `NetworkSettings` of `types.ContainerJSON`, a pointer: `none` is nil,
as in the zero value. -/
structure ContainerJSON where
  NetworkSettings : Option NetworkSettings
deriving DecidableEq, Repr

/-- The `Name` of `types.Volume`. -/
structure Volume where
  Name : String
deriving DecidableEq, Repr

/-- The engine behind `client.Client`: the response to each call, as a function
of the history before the call and of the call's arguments. `ReadAll` is what
`ioutil.ReadAll` yields on a stream the engine handed out. -/
structure Engine where
  ContainerList : Hist → ContainerListOptions → List Container × Option Err
  ContainerCreate : Hist → Option Config → Option HostConfig → Option NetworkingConfig →
    String → ContainerCreateResponse × Option Err
  ContainerExecCreate : Hist → String → ExecConfig → ContainerExecCreateResponse × Option Err
  ContainerExecAttach : Hist → String → ExecConfig → HijackedResponse × Option Err
  ContainerExecInspect : Hist → String → ContainerExecInspect × Option Err
  ContainerInspect : Hist → String → ContainerJSON × Option Err
  ContainerInspectWithRaw : Hist → String → Bool → (ContainerJSON × String) × Option Err
  ContainerStart : Hist → String → ContainerStartOptions → Option Err
  ContainerLogs : Hist → String → ContainerLogsOptions → Nat × Option Err
  ContainerRemove : Hist → String → ContainerRemoveOptions → Option Err
  ContainerStop : Hist → String → Option Int → Option Err
  ContainerWait : Hist → String → Int × Option Err
  ImageRemove : Hist → String → ImageRemoveOptions → Option Err
  VolumeCreate : Hist → VolumeCreateRequest → Volume × Option Err
  VolumeRemove : Hist → String → Option Err
  ReadAll : Hist → Nat → String × Option Err

/-- The library functions the loops use whose code is not in the repository:
the `%#v` rendering of an error and of a `[]string`, and `json.Indent`
(source, prefix, indent), which yields the text appended to the destination
buffer and an error. -/
structure Lib where
  goSyntaxErr : Err → String
  goSyntaxStrings : List String → String
  jsonIndent : String → String → String → String × Option Err

set_option linter.dupNamespace false

/-- The wrapper: `type Client struct { Client *client.Client }`. -/
structure Client where
  Client : Engine

/-- The sleep of both loops: `60 * time.Second`, in nanoseconds. -/
def sweepInterval : Int := 60 * 1000000000

/-- `ContainerList`. -/
def Client.ContainerList (c : Docker.Client) (h : Hist) : (List Container × Option Err) × Hist :=
  (c.Client.ContainerList h {}, h ++ [Event.call (Call.ContainerList {})])

/-- `ContainerCreate`: the identifier of the response and the error, both as
the engine returned them. -/
def Client.ContainerCreate (c : Docker.Client) (config : Option Config) (hostconfig : Option HostConfig)
    (h : Hist) : (String × Option Err) × Hist :=
  let r := c.Client.ContainerCreate h config hostconfig none ""
  ((r.1.ID, r.2), h ++ [Event.call (Call.ContainerCreate config hostconfig none "")])

/-- `ContainerExec`: create the exec session, attach to it, read the stream to
its end, inspect the session. The deferred `attach.Close()` runs on every
return after a successful attach. -/
def Client.ContainerExec (c : Docker.Client) (id : String) (cmd : List String) (h : Hist) :
    (Int × Option String × Option Err) × Hist :=
  let cfg : ExecConfig := { AttachStdout := true, Cmd := cmd }
  let exec := c.Client.ContainerExecCreate h id cfg
  let h1 := h ++ [Event.call (Call.ContainerExecCreate id cfg)]
  match exec.2 with
  | some err => ((0, none, some err), h1)
  | none =>
    let attach := c.Client.ContainerExecAttach h1 exec.1.ID {}
    let h2 := h1 ++ [Event.call (Call.ContainerExecAttach exec.1.ID {})]
    match attach.2 with
    | some err => ((0, none, some err), h2)
    | none =>
      let bytes := c.Client.ReadAll h2 attach.1.Reader
      let h3 := h2 ++ [Event.readAll attach.1.Reader]
      match bytes.2 with
      | some err => ((0, none, some err), h3 ++ [Event.close attach.1.Conn])
      | none =>
        let inspect := c.Client.ContainerExecInspect h3 exec.1.ID
        let h4 := h3 ++ [Event.call (Call.ContainerExecInspect exec.1.ID)]
        match inspect.2 with
        | some err => ((0, none, some err), h4 ++ [Event.close attach.1.Conn])
        | none => ((inspect.1.ExitCode, some bytes.1, none), h4 ++ [Event.close attach.1.Conn])

/-- `ContainerInspect`: the address of the container. The result is `none` when
the engine answers without error and without network settings: the code then
dereferences a nil pointer at `json.NetworkSettings.IPAddress` and panics. -/
def Client.ContainerInspect (c : Docker.Client) (id : String) (h : Hist) :
    Option (String × Option Err) × Hist :=
  let json := c.Client.ContainerInspect h id
  let h1 := h ++ [Event.call (Call.ContainerInspect id)]
  match json.2 with
  | some err => (some ("", some err), h1)
  | none =>
    match json.1.NetworkSettings with
    | some settings => (some (settings.IPAddress, none), h1)
    | none => (none, h1)

/-- `ContainerStart`. -/
def Client.ContainerStart (c : Docker.Client) (id : String) (h : Hist) : Option Err × Hist :=
  (c.Client.ContainerStart h id {}, h ++ [Event.call (Call.ContainerStart id {})])

/-- `ContainerLogs`. -/
def Client.ContainerLogs (c : Docker.Client) (id : String) (h : Hist) :
    (Option String × Option Err) × Hist :=
  let opts : ContainerLogsOptions := { ShowStdout := true, ShowStderr := true }
  let r := c.Client.ContainerLogs h id opts
  let h1 := h ++ [Event.call (Call.ContainerLogs id opts)]
  match r.2 with
  | some err => ((none, some err), h1)
  | none =>
    let bytes := c.Client.ReadAll h1 r.1
    ((some bytes.1, bytes.2), h1 ++ [Event.readAll r.1])

/-- `ContainerRemove`. -/
def Client.ContainerRemove (c : Docker.Client) (id : String) (h : Hist) : Option Err × Hist :=
  (c.Client.ContainerRemove h id {}, h ++ [Event.call (Call.ContainerRemove id {})])

/-- `ContainerStop`. -/
def Client.ContainerStop (c : Docker.Client) (id : String) (timeout : Option Int) (h : Hist) :
    Option Err × Hist :=
  (c.Client.ContainerStop h id timeout, h ++ [Event.call (Call.ContainerStop id timeout)])

/-- `ContainerStopAndRemove`. -/
def Client.ContainerStopAndRemove (c : Docker.Client) (id : String) (timeout : Option Int) (h : Hist) :
    Option Err × Hist :=
  let r := c.ContainerStop id timeout h
  match r.1 with
  | some err => (some err, r.2)
  | none => c.ContainerRemove id r.2

/-- `ContainerWait`. -/
def Client.ContainerWait (c : Docker.Client) (id : String) (h : Hist) : (Int × Option Err) × Hist :=
  (c.Client.ContainerWait h id, h ++ [Event.call (Call.ContainerWait id)])

/-- `ImageRemove`. -/
def Client.ImageRemove (c : Docker.Client) (name : String) (h : Hist) : Option Err × Hist :=
  (c.Client.ImageRemove h name {}, h ++ [Event.call (Call.ImageRemove name {})])

/-- `VolumeCreate`. -/
def Client.VolumeCreate (c : Docker.Client) (h : Hist) : (String × Option Err) × Hist :=
  let r := c.Client.VolumeCreate h {}
  ((r.1.Name, r.2), h ++ [Event.call (Call.VolumeCreate {})])

/-- `VolumeRemove`. -/
def Client.VolumeRemove (c : Docker.Client) (name : String) (h : Hist) : Option Err × Hist :=
  (c.Client.VolumeRemove h name, h ++ [Event.call (Call.VolumeRemove name)])

/-- `string(buf)` of a byte slice that may be nil. -/
def bytesToString (buf : Option String) : String := buf.getD ""

/-- Whether a loop is still going or has returned. -/
inductive Status where
  | running
  | stopped
deriving DecidableEq, Repr

/-- The body of the `range containers` loop of `ExecInActiveContainers`. -/
def Client.execBody (c : Docker.Client) (L : Lib) (cmd : List String) (h : Hist)
    (container : Container) : Hist :=
  let h1 := h ++ [Event.write
    ("found container " ++ container.ID ++ " running command " ++ container.Command ++ "\n")]
  let r := c.ContainerExec container.ID cmd h1
  match r.1.2.2 with
  | some err => r.2 ++ [Event.write ("container exec error: " ++ L.goSyntaxErr err ++ "\n")]
  | none => r.2 ++ [Event.write
      ("exec of command " ++ L.goSyntaxStrings cmd ++ " into " ++ container.ID ++ " had rc " ++
        toString r.1.1 ++ " and text " ++ bytesToString r.1.2.1 ++ "\n")]

/-- The `range containers` loop of `ExecInActiveContainers`. -/
def Client.execSweep (c : Docker.Client) (L : Lib) (cmd : List String) (containers : List Container)
    (h : Hist) : Hist :=
  containers.foldl (c.execBody L cmd) h

/-- One turn of the `for` loop of `ExecInActiveContainers`. -/
def Client.execIteration (c : Docker.Client) (L : Lib) (ctx : Ctx) (cmd : List String) (h : Hist) :
    Status × Hist :=
  let h1 := h ++ [Event.sleep sweepInterval]
  if ctx h1 then (Status.stopped, h1 ++ [Event.check true])
  else
    let h2 := h1 ++ [Event.check false]
    let r := c.ContainerList h2
    match r.1.2 with
    | some err =>
      (Status.running, r.2 ++ [Event.write ("container list error: " ++ L.goSyntaxErr err ++ "\n")])
    | none =>
      let h3 := r.2 ++ [Event.write ("found " ++ toString r.1.1.length ++ " containers\n")]
      (Status.running, c.execSweep L cmd r.1.1 h3)

/-- `ExecInActiveContainers`, run for at most `fuel` turns of its loop. -/
def Client.ExecInActiveContainers (c : Docker.Client) (L : Lib) (ctx : Ctx) (cmd : List String) :
    Nat → Hist → Status × Hist
  | 0, h => (Status.running, h)
  | fuel + 1, h =>
    match c.execIteration L ctx cmd h with
    | (Status.stopped, h1) => (Status.stopped, h1)
    | (Status.running, h1) => Client.ExecInActiveContainers c L ctx cmd fuel h1

/-- The body of the `range containers` loop of `InspectActiveContainers`. -/
def Client.inspectBody (c : Docker.Client) (L : Lib) (h : Hist) (container : Container) : Hist :=
  let h1 := h ++ [Event.write
    ("found container " ++ container.ID ++ " running command " ++ container.Command ++ "\n")]
  let r := c.Client.ContainerInspectWithRaw h1 container.ID true
  let h2 := h1 ++ [Event.call (Call.ContainerInspectWithRaw container.ID true)]
  match r.2 with
  | some err => h2 ++ [Event.write ("container inspect error: " ++ L.goSyntaxErr err ++ "\n")]
  | none =>
    let body := r.1.2
    let pretty := L.jsonIndent body "" "\t"
    match pretty.2 with
    | some _ => h2 ++ [Event.write
        ("inspect of " ++ container.ID ++ " returned raw json " ++ body ++ "\n")]
    | none => h2 ++ [Event.write
        ("inspect of " ++ container.ID ++ " returned formatted json:\n" ++ pretty.1 ++ "\n")]

/-- The `range containers` loop of `InspectActiveContainers`. -/
def Client.inspectSweep (c : Docker.Client) (L : Lib) (containers : List Container) (h : Hist) : Hist :=
  containers.foldl (c.inspectBody L) h

/-- One turn of the `for` loop of `InspectActiveContainers`. -/
def Client.inspectIteration (c : Docker.Client) (L : Lib) (ctx : Ctx) (h : Hist) : Status × Hist :=
  let h1 := h ++ [Event.sleep sweepInterval]
  if ctx h1 then (Status.stopped, h1 ++ [Event.check true])
  else
    let h2 := h1 ++ [Event.check false]
    let r := c.ContainerList h2
    match r.1.2 with
    | some err =>
      (Status.running, r.2 ++ [Event.write ("container list error: " ++ L.goSyntaxErr err ++ "\n")])
    | none =>
      let h3 := r.2 ++ [Event.write ("found " ++ toString r.1.1.length ++ " containers\n")]
      (Status.running, c.inspectSweep L r.1.1 h3)

/-- `InspectActiveContainers`, run for at most `fuel` turns of its loop. -/
def Client.InspectActiveContainers (c : Docker.Client) (L : Lib) (ctx : Ctx) :
    Nat → Hist → Status × Hist
  | 0, h => (Status.running, h)
  | fuel + 1, h =>
    match c.inspectIteration L ctx h with
    | (Status.stopped, h1) => (Status.stopped, h1)
    | (Status.running, h1) => Client.InspectActiveContainers c L ctx fuel h1

/-! ## Observations on a history -/

/-- The texts written to the sink, in order. -/
def sinkOf (h : Hist) : List String :=
  h.filterMap fun e => match e with
    | Event.write s => some s
    | _ => none

/-- The calls made on the engine client, in order. -/
def callsOf (h : Hist) : List Call :=
  h.filterMap fun e => match e with
    | Event.call c => some c
    | _ => none

/-- What the reads of the cancellation signal observed, in order. -/
def checksOf (h : Hist) : List Bool :=
  h.filterMap fun e => match e with
    | Event.check b => some b
    | _ => none

/-! ## Concrete engines, for the worked examples -/

/-- An engine with no container, on which every call succeeds. -/
def quietEngine : Engine where
  ContainerList := fun _ _ => ([], none)
  ContainerCreate := fun _ _ _ _ _ => (⟨"new"⟩, none)
  ContainerExecCreate := fun _ id _ => (⟨"exec-" ++ id⟩, none)
  ContainerExecAttach := fun _ _ _ => (⟨7, 7⟩, none)
  ContainerExecInspect := fun _ _ => (⟨0⟩, none)
  ContainerInspect := fun _ _ => (⟨some ⟨"10.0.0.2"⟩⟩, none)
  ContainerInspectWithRaw := fun _ _ _ => ((⟨some ⟨"10.0.0.2"⟩⟩, "\x7b\x7d"), none)
  ContainerStart := fun _ _ _ => none
  ContainerLogs := fun _ _ _ => (9, none)
  ContainerRemove := fun _ _ _ => none
  ContainerStop := fun _ _ _ => none
  ContainerWait := fun _ _ => (0, none)
  ImageRemove := fun _ _ _ => none
  VolumeCreate := fun _ _ => (⟨"vol"⟩, none)
  VolumeRemove := fun _ _ => none
  ReadAll := fun _ _ => ("hi\n", none)

/-- Library functions for the worked examples: an error is shown by its
message, a command by its words between brackets, and `json.Indent` accepts
exactly the text `{}`. -/
def sampleLib : Lib where
  goSyntaxErr := fun e => e.msg
  goSyntaxStrings := fun cmd => "[" ++ " ".intercalate cmd ++ "]"
  jsonIndent := fun src _ _ => if src = "\x7b\x7d" then ("\x7b\x7d", none) else ("", some ⟨"invalid"⟩)

/-- An engine on which stopping any container fails: there is no such
container. -/
def goneEngine : Engine :=
  { quietEngine with
    ContainerStop := fun _ _ _ => some ⟨"No such container"⟩
    ContainerRemove := fun _ _ _ => some ⟨"No such container"⟩ }

/-! ## Vocabulary of the statements, and further worked-example data -/

/-- The configuration `ContainerExec` creates an exec session with. -/
def execCreateConfig (cmd : List String) : ExecConfig := { AttachStdout := true, Cmd := cmd }

/-- An engine on which attaching to an exec session fails. -/
def attachFailsEngine : Engine :=
  { quietEngine with ContainerExecAttach := fun _ _ _ => (⟨0, 0⟩, some ⟨"attach refused"⟩) }

/-- An engine whose exec streams break off after some output. -/
def readFailsEngine : Engine :=
  { quietEngine with ReadAll := fun _ _ => ("partial", some ⟨"unexpected EOF"⟩) }

/-- An engine whose exec sessions end with exit code 3. -/
def rcThreeEngine : Engine :=
  { quietEngine with ContainerExecInspect := fun _ _ => (⟨3⟩, none) }

/-- A signal that is triggered from the start. -/
def cancelledCtx : Ctx := fun _ => true

/-- A signal that is never triggered. -/
def neverCtx : Ctx := fun _ => false

/-- The history after a turn in which the listing failed with `e`: the sleep,
the check, the list call and the one line reporting the failure. -/
def afterListError (L : Lib) (h : Hist) (e : Err) : Hist :=
  h ++ [Event.sleep sweepInterval, Event.check false, Event.call (Call.ContainerList {}),
        Event.write ("container list error: " ++ L.goSyntaxErr e ++ "\n")]

/-- The calls of one `ContainerExec` of `cmd` in the container `id`: the exec
session is created in that container, asking for stdout and carrying that
command, with no other option set; the attach carries zero-valued options. -/
def Call.ofExec (id : String) (cmd : List String) : Call → Prop
  | Call.ContainerExecCreate container cfg => container = id ∧ cfg = execCreateConfig cmd
  | Call.ContainerExecAttach _ cfg => cfg = {}
  | Call.ContainerExecInspect _ => True
  | _ => False

/-- The calls of a turn of `ExecInActiveContainers` with the command `cmd`: the
listing with zero-valued options, and the calls of `ContainerExec` of that
command in some container. -/
def Call.ofExecTurn (cmd : List String) : Call → Prop
  | Call.ContainerList o => o = {}
  | Call.ContainerExecCreate _ cfg => cfg = execCreateConfig cmd
  | Call.ContainerExecAttach _ cfg => cfg = {}
  | Call.ContainerExecInspect _ => True
  | _ => False

/-- The calls of a turn of `InspectActiveContainers`: the listing with
zero-valued options, and raw inspections that ask for sizes. -/
def Call.ofInspectTurn : Call → Prop
  | Call.ContainerList o => o = {}
  | Call.ContainerInspectWithRaw _ getSize => getSize = true
  | _ => False

instance (id : String) (cmd : List String) : DecidablePred (Call.ofExec id cmd) := fun call => by
  cases call <;> unfold Call.ofExec <;> infer_instance

instance (cmd : List String) : DecidablePred (Call.ofExecTurn cmd) := fun call => by
  cases call <;> unfold Call.ofExecTurn <;> infer_instance

instance : DecidablePred Call.ofInspectTurn := fun call => by
  cases call <;> unfold Call.ofInspectTurn <;> infer_instance

/-- An event of the work on the containers: neither a sleep nor a read of the
cancellation signal, and, if a call, one of those `P` admits. -/
def Event.ofBody (P : Call → Prop) : Event → Prop
  | Event.sleep _ => False
  | Event.check _ => False
  | Event.call c => P c
  | _ => True

/-- The exec sessions created, in order: the container and the configuration
of each. -/
def execCreatesOf (h : Hist) : List (String × ExecConfig) :=
  h.filterMap fun e => match e with
    | Event.call (Call.ContainerExecCreate id cfg) => some (id, cfg)
    | _ => none

/-- The containers inspected raw, in order. -/
def rawInspectsOf (h : Hist) : List String :=
  h.filterMap fun e => match e with
    | Event.call (Call.ContainerInspectWithRaw id _) => some id
    | _ => none

/-- An engine that cannot be reached: listing the containers fails. -/
def unreachableEngine : Engine :=
  { quietEngine with ContainerList := fun _ _ => ([], some ⟨"connection refused"⟩) }

/-- Three running containers. -/
def threeContainers : List Container :=
  [⟨"c1", "nginx"⟩, ⟨"c2", "redis-server"⟩, ⟨"c3", "sleep 1d"⟩]

/-- An engine with three containers, in each of which every command exits
with code 0 after printing `hi`. -/
def threeEngine : Engine :=
  { quietEngine with ContainerList := fun _ _ => (threeContainers, none) }

/-- An engine with three containers on which the second fails each operation:
no exec session can be created in it and it cannot be inspected; the
inspection of the third is not JSON. -/
def flakyEngine : Engine :=
  { quietEngine with
    ContainerList := fun _ _ => (threeContainers, none)
    ContainerExecCreate := fun _ id _ =>
      if id = "c2" then (⟨""⟩, some ⟨"container is paused"⟩) else (⟨"exec-" ++ id⟩, none)
    ContainerInspectWithRaw := fun _ id _ =>
      if id = "c2" then ((⟨none⟩, ""), some ⟨"no such container"⟩)
      else if id = "c3" then ((⟨some ⟨"10.0.0.3"⟩⟩, "<html>"), none)
      else ((⟨some ⟨"10.0.0.2"⟩⟩, "\x7b\x7d"), none) }

/-- A signal that is triggered once the containers have been listed: within a
sweep, after its check. -/
def afterListCtx : Ctx := fun h => h.any fun e =>
  match e with
  | Event.call (Call.ContainerList _) => true
  | _ => false

/-- Whether the text `s` begins with the text `p`. -/
def startsWith (p s : String) : Bool := p.data.isPrefixOf s.data

/-- A line reporting a failed exec. -/
def isExecErrorLine (s : String) : Bool := startsWith "container exec error: " s

/-- A line reporting the exit code and the output of an exec. -/
def isExecSuccessLine (s : String) : Bool := startsWith "exec of command " s

/-- The line announcing a container. -/
def foundLine (k : Container) : String :=
  "found container " ++ k.ID ++ " running command " ++ k.Command ++ "\n"

/-- The line reporting that the exec failed with `e`. -/
def execErrorLine (L : Lib) (e : Err) : String :=
  "container exec error: " ++ L.goSyntaxErr e ++ "\n"

/-- The line reporting that `cmd` exited in `k` with code `rc` and output `out`. -/
def execSuccessLine (L : Lib) (cmd : List String) (k : Container) (rc : Int) (out : String) :
    String :=
  "exec of command " ++ L.goSyntaxStrings cmd ++ " into " ++ k.ID ++ " had rc " ++
    toString rc ++ " and text " ++ out ++ "\n"

/-- The line the sweep writes for a container on the result of its exec. -/
def execResultLine (L : Lib) (cmd : List String) (k : Container)
    (r : Int × Option String × Option Err) : String :=
  match r.2.2 with
  | some e => execErrorLine L e
  | none => execSuccessLine L cmd k r.1 (bytesToString r.2.1)

/-- The results of the `ContainerExec` calls of a sweep over `ks` that starts at
history `h`, one per container, each taken at the history the sweep has
reached when it makes the call. -/
def Client.execOutcomes (c : Docker.Client) (L : Lib) (cmd : List String) :
    List Container → Hist → List (Int × Option String × Option Err)
  | [], _ => []
  | k :: ks, h =>
    (c.ContainerExec k.ID cmd (h ++ [Event.write (foundLine k)])).1 ::
      Client.execOutcomes c L cmd ks (c.execBody L cmd h k)

/-- The history at which a sweep over `ks` starts in a turn begun at `h`:
after the sleep, the check, the list call and the line counting the
containers. -/
def sweepStart (h : Hist) (ks : List Container) : Hist :=
  h ++ [Event.sleep sweepInterval, Event.check false, Event.call (Call.ContainerList {}),
        Event.write ("found " ++ toString ks.length ++ " containers\n")]

/-- A call whose options are all zero-valued. A stop carries the caller's
timeout and a create the caller's configurations, which are arguments and not
options; a create has default options when it is given no networking
configuration and no name. -/
def Call.defaultOptions : Call → Prop
  | Call.ContainerList o => o = {}
  | Call.ContainerCreate _ _ n name => n = none ∧ name = ""
  | Call.ContainerExecCreate _ cfg => cfg = {}
  | Call.ContainerExecAttach _ cfg => cfg = {}
  | Call.ContainerExecInspect _ => True
  | Call.ContainerInspect _ => True
  | Call.ContainerInspectWithRaw _ getSize => getSize = false
  | Call.ContainerStart _ o => o = {}
  | Call.ContainerLogs _ o => o = {}
  | Call.ContainerRemove _ o => o = {}
  | Call.ContainerStop _ _ => True
  | Call.ContainerWait _ => True
  | Call.ImageRemove _ o => o = {}
  | Call.VolumeCreate o => o = {}
  | Call.VolumeRemove _ => True

/-- The creation of an exec session that asks for stdout and carries a command,
with no other option set. -/
def Call.isStdoutExecCreate : Call → Prop
  | Call.ContainerExecCreate _ cfg => cfg = execCreateConfig cfg.Cmd
  | _ => False

/-- The options of the outbound calls as the specification words them: default
options on every call, the one exception being the creation of an exec
session, which asks for stdout and carries the command. -/
def Call.asSpecified (call : Call) : Prop :=
  call.defaultOptions ∨ call.isStdoutExecCreate

instance : DecidablePred Call.defaultOptions := fun call => by
  cases call <;> unfold Call.defaultOptions <;> infer_instance

instance : DecidablePred Call.isStdoutExecCreate := fun call => by
  cases call <;> unfold Call.isStdoutExecCreate <;> infer_instance

instance : DecidablePred Call.asSpecified := fun call => by
  unfold Call.asSpecified
  infer_instance

/-- The operations of the wrapper, each with its arguments; the two loops with
the number of turns they are run for. -/
inductive Op where
  | ContainerList
  | ContainerCreate (config : Option Config) (hostconfig : Option HostConfig)
  | ContainerExec (id : String) (cmd : List String)
  | ContainerInspect (id : String)
  | ContainerStart (id : String)
  | ContainerLogs (id : String)
  | ContainerRemove (id : String)
  | ContainerStop (id : String) (timeout : Option Int)
  | ContainerStopAndRemove (id : String) (timeout : Option Int)
  | ContainerWait (id : String)
  | ImageRemove (name : String)
  | VolumeCreate
  | VolumeRemove (name : String)
  | ExecInActiveContainers (cmd : List String) (fuel : Nat)
  | InspectActiveContainers (fuel : Nat)

/-- The history after an operation of the wrapper. -/
def Op.run (c : Docker.Client) (L : Lib) (ctx : Ctx) : Op → Hist → Hist
  | Op.ContainerList, h => (c.ContainerList h).2
  | Op.ContainerCreate config hostconfig, h => (c.ContainerCreate config hostconfig h).2
  | Op.ContainerExec id cmd, h => (c.ContainerExec id cmd h).2
  | Op.ContainerInspect id, h => (c.ContainerInspect id h).2
  | Op.ContainerStart id, h => (c.ContainerStart id h).2
  | Op.ContainerLogs id, h => (c.ContainerLogs id h).2
  | Op.ContainerRemove id, h => (c.ContainerRemove id h).2
  | Op.ContainerStop id timeout, h => (c.ContainerStop id timeout h).2
  | Op.ContainerStopAndRemove id timeout, h => (c.ContainerStopAndRemove id timeout h).2
  | Op.ContainerWait id, h => (c.ContainerWait id h).2
  | Op.ImageRemove name, h => (c.ImageRemove name h).2
  | Op.VolumeCreate, h => (c.VolumeCreate h).2
  | Op.VolumeRemove name, h => (c.VolumeRemove name h).2
  | Op.ExecInActiveContainers cmd fuel, h => (c.ExecInActiveContainers L ctx cmd fuel h).2
  | Op.InspectActiveContainers fuel, h => (c.InspectActiveContainers L ctx fuel h).2

/-- The calls an operation of the wrapper makes, with the arguments it was
given: what each call on the engine client carries. -/
def Op.makes : Op → Call → Prop
  | Op.ContainerList, call => call = Call.ContainerList {}
  | Op.ContainerCreate config hostconfig, call =>
    call = Call.ContainerCreate config hostconfig none ""
  | Op.ContainerExec id cmd, call => call.ofExec id cmd
  | Op.ContainerInspect id, call => call = Call.ContainerInspect id
  | Op.ContainerStart id, call => call = Call.ContainerStart id {}
  | Op.ContainerLogs id, call =>
    call = Call.ContainerLogs id { ShowStdout := true, ShowStderr := true }
  | Op.ContainerRemove id, call => call = Call.ContainerRemove id {}
  | Op.ContainerStop id timeout, call => call = Call.ContainerStop id timeout
  | Op.ContainerStopAndRemove id timeout, call =>
    call = Call.ContainerStop id timeout ∨ call = Call.ContainerRemove id {}
  | Op.ContainerWait id, call => call = Call.ContainerWait id
  | Op.ImageRemove name, call => call = Call.ImageRemove name {}
  | Op.VolumeCreate, call => call = Call.VolumeCreate {}
  | Op.VolumeRemove name, call => call = Call.VolumeRemove name
  | Op.ExecInActiveContainers cmd _, call => call.ofExecTurn cmd
  | Op.InspectActiveContainers _, call => call.ofInspectTurn

instance (op : Op) : DecidablePred op.makes := fun call => by
  cases op <;> unfold Op.makes <;> infer_instance

/-- A request for logs that sets `ShowStdout` and `ShowStderr` and no other
option. -/
def Call.isStdStreamsLogs : Call → Prop
  | Call.ContainerLogs _ o => o = { ShowStdout := true, ShowStderr := true }
  | _ => False

/-- A raw inspection that asks for sizes. -/
def Call.isSizedRawInspect : Call → Prop
  | Call.ContainerInspectWithRaw _ getSize => getSize = true
  | _ => False

instance : DecidablePred Call.isStdStreamsLogs := fun call => by
  cases call <;> unfold Call.isStdStreamsLogs <;> infer_instance

instance : DecidablePred Call.isSizedRawInspect := fun call => by
  cases call <;> unfold Call.isSizedRawInspect <;> infer_instance

/-! ## The single-shot operations -/

/-- C5. `ContainerStopAndRemove` stops and then removes: when the stop fails
with `e`, the result is `e` and the only call made is the stop; when the stop
succeeds, exactly one remove of the same container follows and its result is
the result. -/
theorem ContainerStopAndRemove_stop_then_remove (c : Docker.Client) (id : String)
    (timeout : Option Int) (h : Hist) :
    (∀ e, c.Client.ContainerStop h id timeout = some e →
      c.ContainerStopAndRemove id timeout h =
        (some e, h ++ [Event.call (Call.ContainerStop id timeout)])) ∧
    (c.Client.ContainerStop h id timeout = none →
      c.ContainerStopAndRemove id timeout h =
        (c.Client.ContainerRemove (h ++ [Event.call (Call.ContainerStop id timeout)]) id {},
          h ++ [Event.call (Call.ContainerStop id timeout),
                Event.call (Call.ContainerRemove id {})])) := by
  constructor
  · intro e he
    simp [Client.ContainerStopAndRemove, Client.ContainerStop, he]
  · intro he
    simp [Client.ContainerStopAndRemove, Client.ContainerStop, Client.ContainerRemove, he]

/-- C5, worked: on a container that is already gone the stop fails, the
failure is the result, and the history holds the one stop call and nothing
else; on the quiet engine the stop succeeds and one remove follows. -/
theorem ContainerStopAndRemove_stop_then_remove_witness :
    (Client.mk goneEngine).ContainerStopAndRemove "c1" (some 5) [] =
        (some ⟨"No such container"⟩, [Event.call (Call.ContainerStop "c1" (some 5))]) ∧
    (Client.mk quietEngine).ContainerStopAndRemove "c1" none [] =
        (none, [Event.call (Call.ContainerStop "c1" none),
                Event.call (Call.ContainerRemove "c1" {})]) :=
  ⟨(ContainerStopAndRemove_stop_then_remove (Client.mk goneEngine) "c1" (some 5) []).1 _ rfl,
   (ContainerStopAndRemove_stop_then_remove (Client.mk quietEngine) "c1" none []).2 rfl⟩

/-- C9. `ContainerExec` creates the exec session, attaches to it, reads the
stream to its end and inspects the session, in that order, attach and inspect
addressed to the session the create returned. The first step to fail with `e`
makes the result `(0, nil, e)`, and no later step appears in the history (only
the deferred close of an attached connection does); when all four succeed the
result is the exit code of the inspection, the bytes read, and no error. -/
theorem ContainerExec_first_failure (c : Docker.Client) (id : String) (cmd : List String)
    (h : Hist) :
    let exec := c.Client.ContainerExecCreate h id (execCreateConfig cmd)
    let h1 := h ++ [Event.call (Call.ContainerExecCreate id (execCreateConfig cmd))]
    let attach := c.Client.ContainerExecAttach h1 exec.1.ID {}
    let h2 := h1 ++ [Event.call (Call.ContainerExecAttach exec.1.ID {})]
    let bytes := c.Client.ReadAll h2 attach.1.Reader
    let h3 := h2 ++ [Event.readAll attach.1.Reader]
    let inspect := c.Client.ContainerExecInspect h3 exec.1.ID
    let h4 := h3 ++ [Event.call (Call.ContainerExecInspect exec.1.ID)]
    (∀ e, exec.2 = some e → c.ContainerExec id cmd h = ((0, none, some e), h1)) ∧
    (∀ e, exec.2 = none → attach.2 = some e →
      c.ContainerExec id cmd h = ((0, none, some e), h2)) ∧
    (∀ e, exec.2 = none → attach.2 = none → bytes.2 = some e →
      c.ContainerExec id cmd h = ((0, none, some e), h3 ++ [Event.close attach.1.Conn])) ∧
    (∀ e, exec.2 = none → attach.2 = none → bytes.2 = none → inspect.2 = some e →
      c.ContainerExec id cmd h = ((0, none, some e), h4 ++ [Event.close attach.1.Conn])) ∧
    (exec.2 = none → attach.2 = none → bytes.2 = none → inspect.2 = none →
      c.ContainerExec id cmd h =
        ((inspect.1.ExitCode, some bytes.1, none), h4 ++ [Event.close attach.1.Conn])) := by
  intro exec h1 attach h2 bytes h3 inspect h4
  have hdef : c.ContainerExec id cmd h =
      match exec.2 with
      | some err => ((0, none, some err), h1)
      | none =>
        match attach.2 with
        | some err => ((0, none, some err), h2)
        | none =>
          match bytes.2 with
          | some err => ((0, none, some err), h3 ++ [Event.close attach.1.Conn])
          | none =>
            match inspect.2 with
            | some err => ((0, none, some err), h4 ++ [Event.close attach.1.Conn])
            | none =>
              ((inspect.1.ExitCode, some bytes.1, none), h4 ++ [Event.close attach.1.Conn]) :=
    rfl
  refine ⟨?_, ?_, ?_, ?_, ?_⟩
  · intro e h0
    rw [hdef, h0]
  · intro e h0 ha
    rw [hdef, h0, ha]
  · intro e h0 ha hb
    rw [hdef, h0, ha, hb]
  · intro e h0 ha hb hi
    rw [hdef, h0, ha, hb, hi]
  · intro h0 ha hb hi
    rw [hdef, h0, ha, hb, hi]

/-- C9, worked: an attach that fails ends the exec after two calls; a stream
that breaks off loses the bytes read so far; a run in which all steps succeed
yields the exit code of the inspection and the bytes read. -/
theorem ContainerExec_first_failure_witness :
    (Client.mk attachFailsEngine).ContainerExec "c1" ["echo", "hi"] [] =
      ((0, none, some ⟨"attach refused"⟩),
        [Event.call (Call.ContainerExecCreate "c1" (execCreateConfig ["echo", "hi"])),
         Event.call (Call.ContainerExecAttach "exec-c1" {})]) ∧
    (Client.mk readFailsEngine).ContainerExec "c1" ["echo", "hi"] [] =
      ((0, none, some ⟨"unexpected EOF"⟩),
        [Event.call (Call.ContainerExecCreate "c1" (execCreateConfig ["echo", "hi"])),
         Event.call (Call.ContainerExecAttach "exec-c1" {}),
         Event.readAll 7, Event.close 7]) ∧
    (Client.mk rcThreeEngine).ContainerExec "c1" ["echo", "hi"] [] =
      ((3, some "hi\n", none),
        [Event.call (Call.ContainerExecCreate "c1" (execCreateConfig ["echo", "hi"])),
         Event.call (Call.ContainerExecAttach "exec-c1" {}),
         Event.readAll 7,
         Event.call (Call.ContainerExecInspect "exec-c1"),
         Event.close 7]) :=
  ⟨(ContainerExec_first_failure (Client.mk attachFailsEngine) "c1" ["echo", "hi"] []).2.1 _
      rfl rfl,
   (ContainerExec_first_failure (Client.mk readFailsEngine) "c1" ["echo", "hi"] []).2.2.1 _
      rfl rfl rfl,
   (ContainerExec_first_failure (Client.mk rcThreeEngine) "c1" ["echo", "hi"] []).2.2.2.2
      rfl rfl rfl rfl⟩

/-! ## The two loops: cancellation and listing failures -/

theorem sinkOf_append (a b : Hist) : sinkOf (a ++ b) = sinkOf a ++ sinkOf b := by
  simp [sinkOf]

theorem callsOf_append (a b : Hist) : callsOf (a ++ b) = callsOf a ++ callsOf b := by
  simp [callsOf]

theorem checksOf_append (a b : Hist) : checksOf (a ++ b) = checksOf a ++ checksOf b := by
  simp [checksOf]

/-- A turn of the exec loop whose check finds the signal triggered ends the
loop right there. -/
theorem execIteration_of_done (c : Docker.Client) (L : Lib) (ctx : Ctx) (cmd : List String)
    (h : Hist) (hdone : ctx (h ++ [Event.sleep sweepInterval]) = true) :
    c.execIteration L ctx cmd h =
      (Status.stopped, h ++ [Event.sleep sweepInterval, Event.check true]) := by
  simp [Client.execIteration, hdone]

/-- A turn of the inspect loop whose check finds the signal triggered ends the
loop right there. -/
theorem inspectIteration_of_done (c : Docker.Client) (L : Lib) (ctx : Ctx) (h : Hist)
    (hdone : ctx (h ++ [Event.sleep sweepInterval]) = true) :
    c.inspectIteration L ctx h =
      (Status.stopped, h ++ [Event.sleep sweepInterval, Event.check true]) := by
  simp [Client.inspectIteration, hdone]

/-- A turn of the exec loop whose check finds the signal untriggered leaves
the loop running. -/
theorem execIteration_status_of_not_done (c : Docker.Client) (L : Lib) (ctx : Ctx)
    (cmd : List String) (h : Hist) (hrun : ctx (h ++ [Event.sleep sweepInterval]) = false) :
    (c.execIteration L ctx cmd h).1 = Status.running := by
  simp only [Client.execIteration, hrun]
  simp only [Bool.false_eq_true, if_false]
  split <;> rfl

/-- A turn of the inspect loop whose check finds the signal untriggered leaves
the loop running. -/
theorem inspectIteration_status_of_not_done (c : Docker.Client) (L : Lib) (ctx : Ctx)
    (h : Hist) (hrun : ctx (h ++ [Event.sleep sweepInterval]) = false) :
    (c.inspectIteration L ctx h).1 = Status.running := by
  simp only [Client.inspectIteration, hrun]
  simp only [Bool.false_eq_true, if_false]
  split <;> rfl

/-- The exec loop goes on from where a running turn left the history. -/
theorem ExecInActiveContainers_succ_of_running (c : Docker.Client) (L : Lib) (ctx : Ctx)
    (cmd : List String) (fuel : Nat) (h : Hist)
    (hrun : (c.execIteration L ctx cmd h).1 = Status.running) :
    c.ExecInActiveContainers L ctx cmd (fuel + 1) h =
      c.ExecInActiveContainers L ctx cmd fuel (c.execIteration L ctx cmd h).2 := by
  rw [Client.ExecInActiveContainers]
  rcases hit : c.execIteration L ctx cmd h with ⟨st, h1⟩
  rw [hit] at hrun
  cases st
  · rfl
  · cases hrun

/-- The inspect loop goes on from where a running turn left the history. -/
theorem InspectActiveContainers_succ_of_running (c : Docker.Client) (L : Lib) (ctx : Ctx)
    (fuel : Nat) (h : Hist) (hrun : (c.inspectIteration L ctx h).1 = Status.running) :
    c.InspectActiveContainers L ctx (fuel + 1) h =
      c.InspectActiveContainers L ctx fuel (c.inspectIteration L ctx h).2 := by
  rw [Client.InspectActiveContainers]
  rcases hit : c.inspectIteration L ctx h with ⟨st, h1⟩
  rw [hit] at hrun
  cases st
  · rfl
  · cases hrun

/-- The exec loop returns in the turn whose check finds the signal triggered. -/
theorem ExecInActiveContainers_succ_of_done (c : Docker.Client) (L : Lib) (ctx : Ctx)
    (cmd : List String) (fuel : Nat) (h : Hist)
    (hdone : ctx (h ++ [Event.sleep sweepInterval]) = true) :
    c.ExecInActiveContainers L ctx cmd (fuel + 1) h =
      (Status.stopped, h ++ [Event.sleep sweepInterval, Event.check true]) := by
  rw [Client.ExecInActiveContainers, execIteration_of_done c L ctx cmd h hdone]

/-- The inspect loop returns in the turn whose check finds the signal
triggered. -/
theorem InspectActiveContainers_succ_of_done (c : Docker.Client) (L : Lib) (ctx : Ctx)
    (fuel : Nat) (h : Hist) (hdone : ctx (h ++ [Event.sleep sweepInterval]) = true) :
    c.InspectActiveContainers L ctx (fuel + 1) h =
      (Status.stopped, h ++ [Event.sleep sweepInterval, Event.check true]) := by
  rw [Client.InspectActiveContainers, inspectIteration_of_done c L ctx h hdone]

/-- C3. When the signal is already triggered at the check after the first
sleep, both loops return at once: the run consists of the sleep and the check,
no call has been made on the engine and nothing has been written. -/
theorem loops_cancelled_at_first_check (c : Docker.Client) (L : Lib) (ctx : Ctx)
    (cmd : List String) (fuel : Nat)
    (hdone : ctx [Event.sleep sweepInterval] = true) :
    c.ExecInActiveContainers L ctx cmd (fuel + 1) [] =
        (Status.stopped, [Event.sleep sweepInterval, Event.check true]) ∧
      callsOf (c.ExecInActiveContainers L ctx cmd (fuel + 1) []).2 = [] ∧
      sinkOf (c.ExecInActiveContainers L ctx cmd (fuel + 1) []).2 = [] ∧
    c.InspectActiveContainers L ctx (fuel + 1) [] =
        (Status.stopped, [Event.sleep sweepInterval, Event.check true]) ∧
      callsOf (c.InspectActiveContainers L ctx (fuel + 1) []).2 = [] ∧
      sinkOf (c.InspectActiveContainers L ctx (fuel + 1) []).2 = [] := by
  have he := ExecInActiveContainers_succ_of_done c L ctx cmd fuel [] hdone
  have hi := InspectActiveContainers_succ_of_done c L ctx fuel [] hdone
  rw [he, hi]
  simp [callsOf, sinkOf]

/-- C3, worked: with a signal triggered from the start, on an engine that
would answer every call, both loops stop after one sleep and one check. -/
theorem loops_cancelled_at_first_check_witness :
    (Client.mk quietEngine).ExecInActiveContainers sampleLib cancelledCtx ["echo", "hi"] 5 [] =
        (Status.stopped, [Event.sleep 60000000000, Event.check true]) ∧
    (Client.mk quietEngine).InspectActiveContainers sampleLib cancelledCtx 5 [] =
        (Status.stopped, [Event.sleep 60000000000, Event.check true]) :=
  have w := loops_cancelled_at_first_check (Client.mk quietEngine) sampleLib cancelledCtx
    ["echo", "hi"] 4 rfl
  ⟨w.1, w.2.2.2.1⟩

theorem execIteration_of_list_error (c : Docker.Client) (L : Lib) (ctx : Ctx) (cmd : List String)
    (h : Hist) (e : Err) (hrun : ctx (h ++ [Event.sleep sweepInterval]) = false)
    (herr : (c.Client.ContainerList (h ++ [Event.sleep sweepInterval, Event.check false]) {}).2
      = some e) :
    c.execIteration L ctx cmd h = (Status.running, afterListError L h e) := by
  simp [Client.execIteration, Client.ContainerList, hrun, herr, afterListError]

theorem inspectIteration_of_list_error (c : Docker.Client) (L : Lib) (ctx : Ctx)
    (h : Hist) (e : Err) (hrun : ctx (h ++ [Event.sleep sweepInterval]) = false)
    (herr : (c.Client.ContainerList (h ++ [Event.sleep sweepInterval, Event.check false]) {}).2
      = some e) :
    c.inspectIteration L ctx h = (Status.running, afterListError L h e) := by
  simp [Client.inspectIteration, Client.ContainerList, hrun, herr, afterListError]

/-! ## What a sweep adds to the history -/

theorem execCreatesOf_append (a b : Hist) :
    execCreatesOf (a ++ b) = execCreatesOf a ++ execCreatesOf b := by
  simp [execCreatesOf]

theorem rawInspectsOf_append (a b : Hist) :
    rawInspectsOf (a ++ b) = rawInspectsOf a ++ rawInspectsOf b := by
  simp [rawInspectsOf]

/-- What `ContainerExec` adds to the history: calls with the wrapper's
arguments, no write, and the creation of one exec session. -/
theorem ContainerExec_events (c : Docker.Client) (id : String) (cmd : List String) (h : Hist) :
    ∃ evs, (c.ContainerExec id cmd h).2 = h ++ evs ∧ (∀ e ∈ evs, e.ofBody (Call.ofExec id cmd)) ∧
      sinkOf evs = [] ∧ execCreatesOf evs = [(id, execCreateConfig cmd)] := by
  unfold Client.ContainerExec
  dsimp only
  split
  · refine ⟨[_], rfl, ?_, ?_, ?_⟩ <;>
      simp [Event.ofBody, Call.ofExec, execCreateConfig, sinkOf, execCreatesOf]
  · split
    · refine ⟨[_, _], by simp only [List.append_assoc]; rfl, ?_, ?_, ?_⟩ <;>
        simp [Event.ofBody, Call.ofExec, execCreateConfig, sinkOf, execCreatesOf]
    · split
      · refine ⟨[_, _, _, _], by simp only [List.append_assoc]; rfl, ?_, ?_, ?_⟩ <;>
          simp [Event.ofBody, Call.ofExec, execCreateConfig, sinkOf, execCreatesOf]
      · split
        · refine ⟨[_, _, _, _, _], by simp only [List.append_assoc]; rfl, ?_, ?_, ?_⟩ <;>
            simp [Event.ofBody, Call.ofExec, execCreateConfig, sinkOf, execCreatesOf]
        · refine ⟨[_, _, _, _, _], by simp only [List.append_assoc]; rfl, ?_, ?_, ?_⟩ <;>
            simp [Event.ofBody, Call.ofExec, execCreateConfig, sinkOf, execCreatesOf]

/-- The calls of one `ContainerExec` are calls of the turn it is made in. -/
theorem Event.ofBody_of_ofExec (id : String) (cmd : List String) (e : Event)
    (he : e.ofBody (Call.ofExec id cmd)) : e.ofBody (Call.ofExecTurn cmd) := by
  cases e with
  | call c =>
    cases c <;> simp_all [Event.ofBody, Call.ofExec, Call.ofExecTurn]
  | _ => exact he

/-- What one container of the exec sweep adds to the history. -/
theorem execBody_events (c : Docker.Client) (L : Lib) (cmd : List String) (h : Hist)
    (k : Container) :
    ∃ evs, c.execBody L cmd h k = h ++ evs ∧ ∀ e ∈ evs, e.ofBody (Call.ofExecTurn cmd) := by
  obtain ⟨evs, hev, hbody, -, -⟩ := ContainerExec_events c k.ID cmd
    (h ++ [Event.write ("found container " ++ k.ID ++ " running command " ++ k.Command ++ "\n")])
  unfold Client.execBody
  dsimp only
  rw [hev]
  split
  · refine ⟨_ :: (evs ++ [_]), by simp only [List.append_assoc]; rfl, ?_⟩
    intro e he
    simp only [List.mem_cons, List.mem_append, List.mem_singleton, List.not_mem_nil,
      or_false] at he
    rcases he with rfl | he | rfl
    · trivial
    · exact Event.ofBody_of_ofExec k.ID cmd e (hbody e he)
    · trivial
  · refine ⟨_ :: (evs ++ [_]), by simp only [List.append_assoc]; rfl, ?_⟩
    intro e he
    simp only [List.mem_cons, List.mem_append, List.mem_singleton, List.not_mem_nil,
      or_false] at he
    rcases he with rfl | he | rfl
    · trivial
    · exact Event.ofBody_of_ofExec k.ID cmd e (hbody e he)
    · trivial

/-- What the exec sweep adds to the history. -/
theorem execSweep_events (c : Docker.Client) (L : Lib) (cmd : List String)
    (ks : List Container) (h : Hist) :
    ∃ evs, c.execSweep L cmd ks h = h ++ evs ∧ ∀ e ∈ evs, e.ofBody (Call.ofExecTurn cmd) := by
  induction ks generalizing h with
  | nil => exact ⟨[], by simp [Client.execSweep], by simp⟩
  | cons k ks ih =>
    obtain ⟨e1, h1, p1⟩ := execBody_events c L cmd h k
    obtain ⟨e2, h2, p2⟩ := ih (c.execBody L cmd h k)
    refine ⟨e1 ++ e2, ?_, ?_⟩
    · have : c.execSweep L cmd (k :: ks) h = c.execSweep L cmd ks (c.execBody L cmd h k) := rfl
      rw [this, h2, h1, List.append_assoc]
    · intro e he
      rcases List.mem_append.1 he with he | he
      · exact p1 e he
      · exact p2 e he

/-- What one container of the inspect sweep adds to the history. -/
theorem inspectBody_events (c : Docker.Client) (L : Lib) (h : Hist) (k : Container) :
    ∃ evs, c.inspectBody L h k = h ++ evs ∧ ∀ e ∈ evs, e.ofBody Call.ofInspectTurn := by
  unfold Client.inspectBody
  dsimp only
  split
  · refine ⟨[_, _, _], by simp only [List.append_assoc]; rfl, ?_⟩
    simp [Event.ofBody, Call.ofInspectTurn]
  · split
    · refine ⟨[_, _, _], by simp only [List.append_assoc]; rfl, ?_⟩
      simp [Event.ofBody, Call.ofInspectTurn]
    · refine ⟨[_, _, _], by simp only [List.append_assoc]; rfl, ?_⟩
      simp [Event.ofBody, Call.ofInspectTurn]

/-- What the inspect sweep adds to the history. -/
theorem inspectSweep_events (c : Docker.Client) (L : Lib) (ks : List Container) (h : Hist) :
    ∃ evs, c.inspectSweep L ks h = h ++ evs ∧ ∀ e ∈ evs, e.ofBody Call.ofInspectTurn := by
  induction ks generalizing h with
  | nil => exact ⟨[], by simp [Client.inspectSweep], by simp⟩
  | cons k ks ih =>
    obtain ⟨e1, h1, p1⟩ := inspectBody_events c L h k
    obtain ⟨e2, h2, p2⟩ := ih (c.inspectBody L h k)
    refine ⟨e1 ++ e2, ?_, ?_⟩
    · have : c.inspectSweep L (k :: ks) h = c.inspectSweep L ks (c.inspectBody L h k) := rfl
      rw [this, h2, h1, List.append_assoc]
    · intro e he
      rcases List.mem_append.1 he with he | he
      · exact p1 e he
      · exact p2 e he

/-- A turn of the exec loop that goes past the check: after the sleep and the
check come only events of the work on the containers. -/
theorem execIteration_events (c : Docker.Client) (L : Lib) (ctx : Ctx) (cmd : List String)
    (h : Hist) (hrun : ctx (h ++ [Event.sleep sweepInterval]) = false) :
    ∃ evs, c.execIteration L ctx cmd h =
        (Status.running, h ++ Event.sleep sweepInterval :: Event.check false :: evs) ∧
      ∀ e ∈ evs, e.ofBody (Call.ofExecTurn cmd) := by
  unfold Client.execIteration
  simp only [hrun, Bool.false_eq_true, if_false, Client.ContainerList]
  split
  · refine ⟨[_, _], by simp only [List.append_assoc]; rfl, ?_⟩
    simp [Event.ofBody, Call.ofExecTurn]
  · obtain ⟨evs, hev, hp⟩ := execSweep_events c L cmd
      (c.Client.ContainerList (h ++ [Event.sleep sweepInterval] ++ [Event.check false]) {}).1
      (h ++ [Event.sleep sweepInterval] ++ [Event.check false] ++
        [Event.call (Call.ContainerList {})] ++
        [Event.write ("found " ++ toString
          (c.Client.ContainerList (h ++ [Event.sleep sweepInterval] ++
            [Event.check false]) {}).1.length ++ " containers\n")])
    rw [hev]
    refine ⟨_ :: _ :: evs, by simp only [List.append_assoc]; rfl, ?_⟩
    intro e he
    simp only [List.mem_cons] at he
    rcases he with rfl | rfl | he
    · simp [Event.ofBody, Call.ofExecTurn]
    · trivial
    · exact hp e he

/-- A turn of the inspect loop that goes past the check: after the sleep and
the check come only events of the work on the containers. -/
theorem inspectIteration_events (c : Docker.Client) (L : Lib) (ctx : Ctx)
    (h : Hist) (hrun : ctx (h ++ [Event.sleep sweepInterval]) = false) :
    ∃ evs, c.inspectIteration L ctx h =
        (Status.running, h ++ Event.sleep sweepInterval :: Event.check false :: evs) ∧
      ∀ e ∈ evs, e.ofBody Call.ofInspectTurn := by
  unfold Client.inspectIteration
  simp only [hrun, Bool.false_eq_true, if_false, Client.ContainerList]
  split
  · refine ⟨[_, _], by simp only [List.append_assoc]; rfl, ?_⟩
    simp [Event.ofBody, Call.ofInspectTurn]
  · obtain ⟨evs, hev, hp⟩ := inspectSweep_events c L
      (c.Client.ContainerList (h ++ [Event.sleep sweepInterval] ++ [Event.check false]) {}).1
      (h ++ [Event.sleep sweepInterval] ++ [Event.check false] ++
        [Event.call (Call.ContainerList {})] ++
        [Event.write ("found " ++ toString
          (c.Client.ContainerList (h ++ [Event.sleep sweepInterval] ++
            [Event.check false]) {}).1.length ++ " containers\n")])
    rw [hev]
    refine ⟨_ :: _ :: evs, by simp only [List.append_assoc]; rfl, ?_⟩
    intro e he
    simp only [List.mem_cons] at he
    rcases he with rfl | rfl | he
    · simp [Event.ofBody, Call.ofInspectTurn]
    · trivial
    · exact hp e he

/-- The work on the containers never reads the cancellation signal. -/
theorem checksOf_eq_nil_of_ofBody {P : Call → Prop} (evs : Hist)
    (hp : ∀ e ∈ evs, e.ofBody P) :
    checksOf evs = [] := by
  induction evs with
  | nil => rfl
  | cons e evs ih =>
    have he := hp e (List.mem_cons_self _ _)
    have ih := ih fun x hx => hp x (List.mem_cons_of_mem _ hx)
    cases e <;> simp_all [checksOf, Event.ofBody]

/-- Every turn of the exec loop begins with the sleep. -/
theorem execIteration_begins_with_sleep (c : Docker.Client) (L : Lib) (ctx : Ctx)
    (cmd : List String) (h : Hist) :
    (h ++ [Event.sleep sweepInterval]) <+: (c.execIteration L ctx cmd h).2 := by
  cases hc : ctx (h ++ [Event.sleep sweepInterval])
  · obtain ⟨evs, hev, -⟩ := execIteration_events c L ctx cmd h hc
    rw [hev]
    exact ⟨Event.check false :: evs, by simp⟩
  · rw [execIteration_of_done c L ctx cmd h hc]
    exact ⟨[Event.check true], by simp⟩

/-- Every turn of the inspect loop begins with the sleep. -/
theorem inspectIteration_begins_with_sleep (c : Docker.Client) (L : Lib) (ctx : Ctx)
    (h : Hist) :
    (h ++ [Event.sleep sweepInterval]) <+: (c.inspectIteration L ctx h).2 := by
  cases hc : ctx (h ++ [Event.sleep sweepInterval])
  · obtain ⟨evs, hev, -⟩ := inspectIteration_events c L ctx h hc
    rw [hev]
    exact ⟨Event.check false :: evs, by simp⟩
  · rw [inspectIteration_of_done c L ctx h hc]
    exact ⟨[Event.check true], by simp⟩

/-- C2. In both loops, a turn in which the listing fails with `e` adds to the
history the sleep, the check, the list call and one write, the line
`container list error: ...`: that line is all the sink receives, the list call
is the only call made, the loop is left running, it goes on with the next
turn, and that turn begins with the sleep. -/
theorem list_error_turn (c : Docker.Client) (L : Lib) (ctx : Ctx) (cmd : List String)
    (h : Hist) (e : Err) (hrun : ctx (h ++ [Event.sleep sweepInterval]) = false)
    (herr : (c.Client.ContainerList (h ++ [Event.sleep sweepInterval, Event.check false]) {}).2
      = some e) :
    c.execIteration L ctx cmd h = (Status.running, afterListError L h e) ∧
    c.inspectIteration L ctx h = (Status.running, afterListError L h e) ∧
    sinkOf (afterListError L h e) =
      sinkOf h ++ ["container list error: " ++ L.goSyntaxErr e ++ "\n"] ∧
    callsOf (afterListError L h e) = callsOf h ++ [Call.ContainerList {}] ∧
    (∀ fuel, c.ExecInActiveContainers L ctx cmd (fuel + 1) h =
      c.ExecInActiveContainers L ctx cmd fuel (afterListError L h e)) ∧
    (∀ fuel, c.InspectActiveContainers L ctx (fuel + 1) h =
      c.InspectActiveContainers L ctx fuel (afterListError L h e)) ∧
    (afterListError L h e ++ [Event.sleep sweepInterval]) <+:
      (c.execIteration L ctx cmd (afterListError L h e)).2 ∧
    (afterListError L h e ++ [Event.sleep sweepInterval]) <+:
      (c.inspectIteration L ctx (afterListError L h e)).2 := by
  have he := execIteration_of_list_error c L ctx cmd h e hrun herr
  have hi := inspectIteration_of_list_error c L ctx h e hrun herr
  refine ⟨he, hi, ?_, ?_, ?_, ?_, execIteration_begins_with_sleep _ _ _ _ _,
    inspectIteration_begins_with_sleep _ _ _ _⟩
  · simp [afterListError, sinkOf]
  · simp [afterListError, callsOf]
  · intro fuel
    rw [ExecInActiveContainers_succ_of_running c L ctx cmd fuel h (by rw [he]), he]
  · intro fuel
    rw [InspectActiveContainers_succ_of_running c L ctx fuel h (by rw [hi]), hi]

/-- C2, worked: on an engine that cannot be reached, with a signal that is
never triggered, two turns of each loop write two list-error lines and make
two list calls, and the loops are still running. -/
theorem list_error_turn_witness :
    (Client.mk unreachableEngine).execIteration sampleLib neverCtx ["echo", "hi"] [] =
      (Status.running,
        [Event.sleep 60000000000, Event.check false, Event.call (Call.ContainerList {}),
         Event.write "container list error: connection refused\n"]) ∧
    (Client.mk unreachableEngine).ExecInActiveContainers sampleLib neverCtx ["echo", "hi"] 2 [] =
      (Status.running,
        [Event.sleep 60000000000, Event.check false, Event.call (Call.ContainerList {}),
         Event.write "container list error: connection refused\n",
         Event.sleep 60000000000, Event.check false, Event.call (Call.ContainerList {}),
         Event.write "container list error: connection refused\n"]) ∧
    (Client.mk unreachableEngine).InspectActiveContainers sampleLib neverCtx 2 [] =
      (Status.running,
        [Event.sleep 60000000000, Event.check false, Event.call (Call.ContainerList {}),
         Event.write "container list error: connection refused\n",
         Event.sleep 60000000000, Event.check false, Event.call (Call.ContainerList {}),
         Event.write "container list error: connection refused\n"]) :=
  ⟨(list_error_turn (Client.mk unreachableEngine) sampleLib neverCtx ["echo", "hi"] []
      ⟨"connection refused"⟩ rfl rfl).1, by decide, by decide⟩

/-- A run of the exec loop: either it has returned, and then the run ends with a
sleep and a check that found the signal triggered, no earlier check having
found it so; or it is still running, every turn has made one check, and none
found the signal triggered. -/
theorem ExecInActiveContainers_run (c : Docker.Client) (L : Lib) (ctx : Ctx) (cmd : List String)
    (fuel : Nat) (h : Hist) :
    ∃ evs, (c.ExecInActiveContainers L ctx cmd fuel h).2 = h ++ evs ∧
      (((c.ExecInActiveContainers L ctx cmd fuel h).1 = Status.stopped ∧
          ∃ pre, evs = pre ++ [Event.sleep sweepInterval, Event.check true] ∧
            ctx (h ++ pre ++ [Event.sleep sweepInterval]) = true ∧ true ∉ checksOf pre) ∨
        ((c.ExecInActiveContainers L ctx cmd fuel h).1 = Status.running ∧
          true ∉ checksOf evs ∧ (checksOf evs).length = fuel)) := by
  induction fuel generalizing h with
  | zero => exact ⟨[], by simp [Client.ExecInActiveContainers], Or.inr ⟨rfl, by simp [checksOf], rfl⟩⟩
  | succ n ih =>
    cases hc : ctx (h ++ [Event.sleep sweepInterval])
    · obtain ⟨evs1, hev, hp⟩ := execIteration_events c L ctx cmd h hc
      have hk := checksOf_eq_nil_of_ofBody evs1 hp
      have hstep := ExecInActiveContainers_succ_of_running c L ctx cmd n h (by rw [hev])
      rw [hev] at hstep
      obtain ⟨evs2, h2, hcase⟩ :=
        ih (h ++ Event.sleep sweepInterval :: Event.check false :: evs1)
      have hk1 : checksOf (Event.sleep sweepInterval :: Event.check false :: evs1) = [false] := by
        have : checksOf (Event.sleep sweepInterval :: Event.check false :: evs1) =
            false :: checksOf evs1 := rfl
        rw [this, hk]
      refine ⟨(Event.sleep sweepInterval :: Event.check false :: evs1) ++ evs2, ?_, ?_⟩
      · rw [hstep, h2, List.append_assoc]
      · rw [hstep]
        rcases hcase with ⟨hst, pre, hpre, hctx, hno⟩ | ⟨hst, hno, hlen⟩
        · refine Or.inl ⟨hst, (Event.sleep sweepInterval :: Event.check false :: evs1) ++ pre,
            ?_, ?_, ?_⟩
          · rw [hpre, List.append_assoc]
          · rw [← List.append_assoc h]
            exact hctx
          · rw [checksOf_append, hk1]
            simpa using hno
        · refine Or.inr ⟨hst, ?_, ?_⟩
          · rw [checksOf_append, hk1]
            simpa using hno
          · rw [checksOf_append, hk1, List.length_append, hlen]
            simp [Nat.add_comm]
    · rw [ExecInActiveContainers_succ_of_done c L ctx cmd n h hc]
      exact ⟨[Event.sleep sweepInterval, Event.check true], rfl,
        Or.inl ⟨rfl, [], rfl, by simpa using hc, by simp [checksOf]⟩⟩

/-- A run of the inspect loop: either it has returned, and then the run ends with a
sleep and a check that found the signal triggered, no earlier check having
found it so; or it is still running, every turn has made one check, and none
found the signal triggered. -/
theorem InspectActiveContainers_run (c : Docker.Client) (L : Lib) (ctx : Ctx)
    (fuel : Nat) (h : Hist) :
    ∃ evs, (c.InspectActiveContainers L ctx fuel h).2 = h ++ evs ∧
      (((c.InspectActiveContainers L ctx fuel h).1 = Status.stopped ∧
          ∃ pre, evs = pre ++ [Event.sleep sweepInterval, Event.check true] ∧
            ctx (h ++ pre ++ [Event.sleep sweepInterval]) = true ∧ true ∉ checksOf pre) ∨
        ((c.InspectActiveContainers L ctx fuel h).1 = Status.running ∧
          true ∉ checksOf evs ∧ (checksOf evs).length = fuel)) := by
  induction fuel generalizing h with
  | zero => exact ⟨[], by simp [Client.InspectActiveContainers], Or.inr ⟨rfl, by simp [checksOf], rfl⟩⟩
  | succ n ih =>
    cases hc : ctx (h ++ [Event.sleep sweepInterval])
    · obtain ⟨evs1, hev, hp⟩ := inspectIteration_events c L ctx h hc
      have hk := checksOf_eq_nil_of_ofBody evs1 hp
      have hstep := InspectActiveContainers_succ_of_running c L ctx n h (by rw [hev])
      rw [hev] at hstep
      obtain ⟨evs2, h2, hcase⟩ :=
        ih (h ++ Event.sleep sweepInterval :: Event.check false :: evs1)
      have hk1 : checksOf (Event.sleep sweepInterval :: Event.check false :: evs1) = [false] := by
        have : checksOf (Event.sleep sweepInterval :: Event.check false :: evs1) =
            false :: checksOf evs1 := rfl
        rw [this, hk]
      refine ⟨(Event.sleep sweepInterval :: Event.check false :: evs1) ++ evs2, ?_, ?_⟩
      · rw [hstep, h2, List.append_assoc]
      · rw [hstep]
        rcases hcase with ⟨hst, pre, hpre, hctx, hno⟩ | ⟨hst, hno, hlen⟩
        · refine Or.inl ⟨hst, (Event.sleep sweepInterval :: Event.check false :: evs1) ++ pre,
            ?_, ?_, ?_⟩
          · rw [hpre, List.append_assoc]
          · rw [← List.append_assoc h]
            exact hctx
          · rw [checksOf_append, hk1]
            simpa using hno
        · refine Or.inr ⟨hst, ?_, ?_⟩
          · rw [checksOf_append, hk1]
            simpa using hno
          · rw [checksOf_append, hk1, List.length_append, hlen]
            simp [Nat.add_comm]
    · rw [InspectActiveContainers_succ_of_done c L ctx n h hc]
      exact ⟨[Event.sleep sweepInterval, Event.check true], rfl,
        Or.inl ⟨rfl, [], rfl, by simpa using hc, by simp [checksOf]⟩⟩

/-- C4. Neither loop returns except on the cancellation signal, whatever the
engine answers. A run that has returned ends with a sleep and a check that
found the signal triggered; a run has returned exactly when one of its checks
found the signal triggered, and otherwise has made one check per turn; and
with a signal that is never triggered both loops are still running after any
number of turns. -/
theorem loops_return_only_on_cancellation (c : Docker.Client) (L : Lib) (ctx : Ctx)
    (cmd : List String) (fuel : Nat) (h : Hist) :
    ((c.ExecInActiveContainers L ctx cmd fuel h).1 = Status.stopped →
      ∃ h0, h <+: h0 ∧
        (c.ExecInActiveContainers L ctx cmd fuel h).2 =
          h0 ++ [Event.sleep sweepInterval, Event.check true] ∧
        ctx (h0 ++ [Event.sleep sweepInterval]) = true) ∧
    ((c.InspectActiveContainers L ctx fuel h).1 = Status.stopped →
      ∃ h0, h <+: h0 ∧
        (c.InspectActiveContainers L ctx fuel h).2 =
          h0 ++ [Event.sleep sweepInterval, Event.check true] ∧
        ctx (h0 ++ [Event.sleep sweepInterval]) = true) ∧
    (∃ evs, (c.ExecInActiveContainers L ctx cmd fuel h).2 = h ++ evs ∧
      ((c.ExecInActiveContainers L ctx cmd fuel h).1 = Status.stopped ↔ true ∈ checksOf evs) ∧
      ((c.ExecInActiveContainers L ctx cmd fuel h).1 = Status.running →
        (checksOf evs).length = fuel)) ∧
    (∃ evs, (c.InspectActiveContainers L ctx fuel h).2 = h ++ evs ∧
      ((c.InspectActiveContainers L ctx fuel h).1 = Status.stopped ↔ true ∈ checksOf evs) ∧
      ((c.InspectActiveContainers L ctx fuel h).1 = Status.running →
        (checksOf evs).length = fuel)) ∧
    ((∀ x, ctx x = false) →
      (c.ExecInActiveContainers L ctx cmd fuel h).1 = Status.running ∧
      (c.InspectActiveContainers L ctx fuel h).1 = Status.running) := by
  obtain ⟨ee, hee, hce⟩ := ExecInActiveContainers_run c L ctx cmd fuel h
  obtain ⟨ei, hei, hci⟩ := InspectActiveContainers_run c L ctx fuel h
  refine ⟨?_, ?_, ⟨ee, hee, ?_, ?_⟩, ⟨ei, hei, ?_, ?_⟩, ?_⟩
  · intro hst
    rcases hce with ⟨-, pre, hpre, hctx, -⟩ | ⟨hr, -, -⟩
    · exact ⟨h ++ pre, ⟨pre, rfl⟩, by rw [hee, hpre, List.append_assoc], hctx⟩
    · rw [hr] at hst
      cases hst
  · intro hst
    rcases hci with ⟨-, pre, hpre, hctx, -⟩ | ⟨hr, -, -⟩
    · exact ⟨h ++ pre, ⟨pre, rfl⟩, by rw [hei, hpre, List.append_assoc], hctx⟩
    · rw [hr] at hst
      cases hst
  · rcases hce with ⟨hs, pre, hpre, -, -⟩ | ⟨hr, hno, -⟩
    · refine ⟨fun _ => ?_, fun _ => hs⟩
      rw [hpre, checksOf_append]
      simp [checksOf]
    · refine ⟨fun hst => ?_, fun hin => absurd hin hno⟩
      rw [hr] at hst
      cases hst
  · rcases hce with ⟨hs, -⟩ | ⟨-, -, hlen⟩
    · intro hr
      rw [hs] at hr
      cases hr
    · exact fun _ => hlen
  · rcases hci with ⟨hs, pre, hpre, -, -⟩ | ⟨hr, hno, -⟩
    · refine ⟨fun _ => ?_, fun _ => hs⟩
      rw [hpre, checksOf_append]
      simp [checksOf]
    · refine ⟨fun hst => ?_, fun hin => absurd hin hno⟩
      rw [hr] at hst
      cases hst
  · rcases hci with ⟨hs, -⟩ | ⟨-, -, hlen⟩
    · intro hr
      rw [hs] at hr
      cases hr
    · exact fun _ => hlen
  · intro hnever
    constructor
    · rcases hce with ⟨-, pre, -, hctx, -⟩ | ⟨hr, -, -⟩
      · rw [hnever] at hctx
        cases hctx
      · exact hr
    · rcases hci with ⟨-, pre, -, hctx, -⟩ | ⟨hr, -, -⟩
      · rw [hnever] at hctx
        cases hctx
      · exact hr

/-- C4, worked: on an engine whose second container fails every operation and
whose third yields no JSON, with a signal that is never triggered, both loops
are still running after four turns. -/
theorem loops_return_only_on_cancellation_witness :
    ((Client.mk flakyEngine).ExecInActiveContainers sampleLib neverCtx ["echo", "hi"] 4 []).1 =
      Status.running ∧
    ((Client.mk flakyEngine).InspectActiveContainers sampleLib neverCtx 4 []).1 =
      Status.running :=
  (loops_return_only_on_cancellation (Client.mk flakyEngine) sampleLib neverCtx ["echo", "hi"]
    4 []).2.2.2.2 fun _ => rfl

/-- A turn of the exec loop depends on the signal only through what the
check observes. -/
theorem execIteration_congr_ctx (c : Docker.Client) (L : Lib) (ctx ctx2 : Ctx)
    (cmd : List String) (h : Hist)
    (hsame : ctx (h ++ [Event.sleep sweepInterval]) = ctx2 (h ++ [Event.sleep sweepInterval])) :
    c.execIteration L ctx cmd h = c.execIteration L ctx2 cmd h := by
  simp only [Client.execIteration, hsame]

/-- A turn of the inspect loop depends on the signal only through what the
check observes. -/
theorem inspectIteration_congr_ctx (c : Docker.Client) (L : Lib) (ctx ctx2 : Ctx) (h : Hist)
    (hsame : ctx (h ++ [Event.sleep sweepInterval]) = ctx2 (h ++ [Event.sleep sweepInterval])) :
    c.inspectIteration L ctx h = c.inspectIteration L ctx2 h := by
  simp only [Client.inspectIteration, hsame]

/-- C10. In each loop a turn reads the cancellation signal once, right after
the sleep, and everything after that read is work on the containers, with no
further read. So a turn whose check finds the signal untriggered adds the same
events, calls and writes included, under any other signal that is untriggered
at that check, however it behaves afterwards; the loop goes on to the next
turn, and returns there if the next check finds the signal triggered. -/
theorem cancellation_read_once_per_turn (c : Docker.Client) (L : Lib) (ctx : Ctx)
    (cmd : List String) (h : Hist) :
    (∃ evs, (c.execIteration L ctx cmd h).2 = h ++ Event.sleep sweepInterval ::
        Event.check (ctx (h ++ [Event.sleep sweepInterval])) :: evs ∧ checksOf evs = []) ∧
    (∃ evs, (c.inspectIteration L ctx h).2 = h ++ Event.sleep sweepInterval ::
        Event.check (ctx (h ++ [Event.sleep sweepInterval])) :: evs ∧ checksOf evs = []) ∧
    (ctx (h ++ [Event.sleep sweepInterval]) = false →
      (∀ ctx2 : Ctx, ctx2 (h ++ [Event.sleep sweepInterval]) = false →
        c.execIteration L ctx2 cmd h = c.execIteration L ctx cmd h ∧
        c.inspectIteration L ctx2 h = c.inspectIteration L ctx h) ∧
      (∀ fuel, c.ExecInActiveContainers L ctx cmd (fuel + 1) h =
        c.ExecInActiveContainers L ctx cmd fuel (c.execIteration L ctx cmd h).2) ∧
      (∀ fuel, c.InspectActiveContainers L ctx (fuel + 1) h =
        c.InspectActiveContainers L ctx fuel (c.inspectIteration L ctx h).2) ∧
      (ctx ((c.execIteration L ctx cmd h).2 ++ [Event.sleep sweepInterval]) = true →
        ∀ fuel, c.ExecInActiveContainers L ctx cmd (fuel + 2) h =
          (Status.stopped, (c.execIteration L ctx cmd h).2 ++
            [Event.sleep sweepInterval, Event.check true])) ∧
      (ctx ((c.inspectIteration L ctx h).2 ++ [Event.sleep sweepInterval]) = true →
        ∀ fuel, c.InspectActiveContainers L ctx (fuel + 2) h =
          (Status.stopped, (c.inspectIteration L ctx h).2 ++
            [Event.sleep sweepInterval, Event.check true]))) := by
  refine ⟨?_, ?_, ?_⟩
  · cases hc : ctx (h ++ [Event.sleep sweepInterval])
    · obtain ⟨evs, hev, hp⟩ := execIteration_events c L ctx cmd h hc
      exact ⟨evs, by rw [hev], checksOf_eq_nil_of_ofBody evs hp⟩
    · rw [execIteration_of_done c L ctx cmd h hc]
      exact ⟨[], rfl, rfl⟩
  · cases hc : ctx (h ++ [Event.sleep sweepInterval])
    · obtain ⟨evs, hev, hp⟩ := inspectIteration_events c L ctx h hc
      exact ⟨evs, by rw [hev], checksOf_eq_nil_of_ofBody evs hp⟩
    · rw [inspectIteration_of_done c L ctx h hc]
      exact ⟨[], rfl, rfl⟩
  · intro hrun
    have hre := execIteration_status_of_not_done c L ctx cmd h hrun
    have hri := inspectIteration_status_of_not_done c L ctx h hrun
    refine ⟨?_, ?_, ?_, ?_, ?_⟩
    · intro ctx2 h2
      exact ⟨execIteration_congr_ctx c L ctx2 ctx cmd h (by rw [h2, hrun]),
        inspectIteration_congr_ctx c L ctx2 ctx h (by rw [h2, hrun])⟩
    · exact fun fuel => ExecInActiveContainers_succ_of_running c L ctx cmd fuel h hre
    · exact fun fuel => InspectActiveContainers_succ_of_running c L ctx fuel h hri
    · intro hnext fuel
      rw [ExecInActiveContainers_succ_of_running c L ctx cmd (fuel + 1) h hre,
        ExecInActiveContainers_succ_of_done c L ctx cmd fuel _ hnext]
    · intro hnext fuel
      rw [InspectActiveContainers_succ_of_running c L ctx (fuel + 1) h hri,
        InspectActiveContainers_succ_of_done c L ctx fuel _ hnext]

/-- C10, worked: with three containers and a signal that is triggered as soon
as the containers have been listed, the first turn of the exec loop is the one
it makes under a signal that is never triggered, all three containers
included, and the loop returns at the check of the second turn. -/
theorem cancellation_read_once_per_turn_witness :
    (Client.mk threeEngine).execIteration sampleLib neverCtx ["echo", "hi"] [] =
      (Client.mk threeEngine).execIteration sampleLib afterListCtx ["echo", "hi"] [] ∧
    execCreatesOf ((Client.mk threeEngine).execIteration sampleLib afterListCtx
        ["echo", "hi"] []).2 =
      [("c1", execCreateConfig ["echo", "hi"]), ("c2", execCreateConfig ["echo", "hi"]),
       ("c3", execCreateConfig ["echo", "hi"])] ∧
    (Client.mk threeEngine).ExecInActiveContainers sampleLib afterListCtx ["echo", "hi"] 7 [] =
      (Status.stopped,
        ((Client.mk threeEngine).execIteration sampleLib afterListCtx ["echo", "hi"] []).2 ++
          [Event.sleep sweepInterval, Event.check true]) :=
  have w := (cancellation_read_once_per_turn (Client.mk threeEngine) sampleLib afterListCtx
    ["echo", "hi"] []).2.2 rfl
  ⟨(w.1 neverCtx rfl).1, by decide, w.2.2.2.1 (by decide) 5⟩

/-! ## The exec sweep: what the sink receives -/

theorem isExecErrorLine_foundLine (k : Container) : isExecErrorLine (foundLine k) = false := by
  simp [isExecErrorLine, foundLine, startsWith, String.data_append, List.isPrefixOf]

theorem isExecSuccessLine_foundLine (k : Container) :
    isExecSuccessLine (foundLine k) = false := by
  simp [isExecSuccessLine, foundLine, startsWith, String.data_append, List.isPrefixOf]

theorem isExecErrorLine_execErrorLine (L : Lib) (e : Err) :
    isExecErrorLine (execErrorLine L e) = true := by
  simp [isExecErrorLine, execErrorLine, startsWith, String.data_append]

theorem isExecSuccessLine_execErrorLine (L : Lib) (e : Err) :
    isExecSuccessLine (execErrorLine L e) = false := by
  simp [isExecSuccessLine, execErrorLine, startsWith, String.data_append, List.isPrefixOf]

theorem isExecErrorLine_execSuccessLine (L : Lib) (cmd : List String) (k : Container)
    (rc : Int) (out : String) : isExecErrorLine (execSuccessLine L cmd k rc out) = false := by
  simp [isExecErrorLine, execSuccessLine, startsWith, String.data_append, List.isPrefixOf]

theorem isExecSuccessLine_execSuccessLine (L : Lib) (cmd : List String) (k : Container)
    (rc : Int) (out : String) : isExecSuccessLine (execSuccessLine L cmd k rc out) = true := by
  simp [isExecSuccessLine, execSuccessLine, startsWith, String.data_append]

/-- What one container of the exec sweep adds to the sink and to the exec
sessions created: the line announcing it and the line on its result; one
session, in that container, for the command. -/
theorem execBody_sink (c : Docker.Client) (L : Lib) (cmd : List String) (h : Hist)
    (k : Container) :
    sinkOf (c.execBody L cmd h k) = sinkOf h ++ [foundLine k,
      execResultLine L cmd k (c.ContainerExec k.ID cmd (h ++ [Event.write (foundLine k)])).1] ∧
    execCreatesOf (c.execBody L cmd h k) = execCreatesOf h ++ [(k.ID, execCreateConfig cmd)] := by
  obtain ⟨evs, hev, -, hsink, hcreate⟩ :=
    ContainerExec_events c k.ID cmd (h ++ [Event.write (foundLine k)])
  have hdef : c.execBody L cmd h k =
      (c.ContainerExec k.ID cmd (h ++ [Event.write (foundLine k)])).2 ++
        [Event.write (execResultLine L cmd k
          (c.ContainerExec k.ID cmd (h ++ [Event.write (foundLine k)])).1)] := by
    unfold Client.execBody execResultLine
    dsimp only
    split <;> rename_i heq <;> simp only [foundLine] at * <;> rw [heq] <;> rfl
  rw [hdef, hev]
  constructor
  · simp only [sinkOf_append, hsink]
    simp [sinkOf]
  · simp only [execCreatesOf_append, hcreate]
    simp [execCreatesOf]

theorem execOutcomes_length (c : Docker.Client) (L : Lib) (cmd : List String)
    (ks : List Container) (h : Hist) : (c.execOutcomes L cmd ks h).length = ks.length := by
  induction ks generalizing h with
  | nil => rfl
  | cons k ks ih => simp [Client.execOutcomes, ih]

/-- The sink after an exec sweep: for each container in turn, the line
announcing it and the line on the result of its exec. -/
theorem execSweep_sink (c : Docker.Client) (L : Lib) (cmd : List String)
    (ks : List Container) (h : Hist) :
    sinkOf (c.execSweep L cmd ks h) = sinkOf h ++
      (ks.zip (c.execOutcomes L cmd ks h)).flatMap fun p =>
        [foundLine p.1, execResultLine L cmd p.1 p.2] := by
  induction ks generalizing h with
  | nil => simp [Client.execSweep, Client.execOutcomes]
  | cons k ks ih =>
    have hstep : c.execSweep L cmd (k :: ks) h = c.execSweep L cmd ks (c.execBody L cmd h k) :=
      rfl
    rw [hstep, ih, (execBody_sink c L cmd h k).1]
    simp [Client.execOutcomes]

/-- The exec sessions created by an exec sweep: one per container, in the order
of the list, each for the command. -/
theorem execSweep_creates (c : Docker.Client) (L : Lib) (cmd : List String)
    (ks : List Container) (h : Hist) :
    execCreatesOf (c.execSweep L cmd ks h) =
      execCreatesOf h ++ ks.map fun k => (k.ID, execCreateConfig cmd) := by
  induction ks generalizing h with
  | nil => simp [Client.execSweep]
  | cons k ks ih =>
    have hstep : c.execSweep L cmd (k :: ks) h = c.execSweep L cmd ks (c.execBody L cmd h k) :=
      rfl
    rw [hstep, ih, (execBody_sink c L cmd h k).2]
    simp

/-- The two lines of one container counted: an error line exactly when its
exec failed, a success line exactly when it did not. -/
theorem resultLines_count (L : Lib) (cmd : List String) (k : Container)
    (r : Int × Option String × Option Err) :
    [foundLine k, execResultLine L cmd k r].countP isExecErrorLine =
      (if r.2.2.isSome then 1 else 0) ∧
    [foundLine k, execResultLine L cmd k r].countP isExecSuccessLine =
      (if r.2.2.isNone then 1 else 0) := by
  obtain ⟨rc, buf, err⟩ := r
  cases err with
  | none =>
    simp [List.countP_cons, execResultLine, isExecErrorLine_foundLine,
      isExecSuccessLine_foundLine, isExecErrorLine_execSuccessLine,
      isExecSuccessLine_execSuccessLine]
  | some e =>
    simp [List.countP_cons, execResultLine, isExecErrorLine_foundLine,
      isExecSuccessLine_foundLine, isExecErrorLine_execErrorLine,
      isExecSuccessLine_execErrorLine]

/-- The lines of a sweep counted: as many error lines as failed execs, as many
success lines as execs that did not fail. -/
theorem sweepLines_count (L : Lib) (cmd : List String)
    (ps : List (Container × (Int × Option String × Option Err))) :
    (ps.flatMap fun p => [foundLine p.1, execResultLine L cmd p.1 p.2]).countP isExecErrorLine =
      (ps.map Prod.snd).countP (fun r => r.2.2.isSome) ∧
    (ps.flatMap fun p => [foundLine p.1, execResultLine L cmd p.1 p.2]).countP
        isExecSuccessLine =
      (ps.map Prod.snd).countP (fun r => r.2.2.isNone) := by
  induction ps with
  | nil => simp
  | cons p ps ih =>
    constructor
    · rw [List.flatMap_cons, List.countP_append, ih.1, (resultLines_count L cmd p.1 p.2).1,
        List.map_cons, List.countP_cons, Nat.add_comm]
    · rw [List.flatMap_cons, List.countP_append, ih.2, (resultLines_count L cmd p.1 p.2).2,
        List.map_cons, List.countP_cons, Nat.add_comm]

/-- A turn of the exec loop in which the listing succeeds is the sweep over
the containers listed. -/
theorem execIteration_of_list_ok (c : Docker.Client) (L : Lib) (ctx : Ctx) (cmd : List String)
    (h : Hist) (ks : List Container) (hrun : ctx (h ++ [Event.sleep sweepInterval]) = false)
    (hlist : c.Client.ContainerList (h ++ [Event.sleep sweepInterval, Event.check false]) {} =
      (ks, none)) :
    c.execIteration L ctx cmd h = (Status.running, c.execSweep L cmd ks (sweepStart h ks)) := by
  simp [Client.execIteration, Client.ContainerList, hrun, hlist, sweepStart]

theorem sinkOf_sweepStart (h : Hist) (ks : List Container) :
    sinkOf (sweepStart h ks) = sinkOf h ++ ["found " ++ toString ks.length ++ " containers\n"] := by
  simp [sweepStart, sinkOf]

theorem execCreatesOf_sweepStart (h : Hist) (ks : List Container) :
    execCreatesOf (sweepStart h ks) = execCreatesOf h := by
  simp [sweepStart, execCreatesOf]

theorem isExecErrorLine_countLine (n : Nat) :
    isExecErrorLine ("found " ++ toString n ++ " containers\n") = false := by
  simp [isExecErrorLine, startsWith, String.data_append, List.isPrefixOf]

theorem isExecSuccessLine_countLine (n : Nat) :
    isExecSuccessLine ("found " ++ toString n ++ " containers\n") = false := by
  simp [isExecSuccessLine, startsWith, String.data_append, List.isPrefixOf]

/-- C1. In a turn of `ExecInActiveContainers` in which the listing yields the
containers `ks` and `M` of the `ContainerExec` calls of the sweep fail, in
whatever positions: one exec session is created per container, in the order of
the list, each for the command (every container is attempted, those after a
failure included); the sink receives `M` lines `container exec error: ...` and
`ks.length - M` lines `exec of command ...`. -/
theorem exec_sweep_attempts_every_container (c : Docker.Client) (L : Lib) (ctx : Ctx)
    (cmd : List String) (h : Hist) (ks : List Container) (M : Nat)
    (hrun : ctx (h ++ [Event.sleep sweepInterval]) = false)
    (hlist : c.Client.ContainerList (h ++ [Event.sleep sweepInterval, Event.check false]) {} =
      (ks, none))
    (hM : (c.execOutcomes L cmd ks (sweepStart h ks)).countP (fun r => r.2.2.isSome) = M) :
    execCreatesOf (c.execIteration L ctx cmd h).2 =
      execCreatesOf h ++ ks.map (fun k => (k.ID, execCreateConfig cmd)) ∧
    (sinkOf (c.execIteration L ctx cmd h).2).countP isExecErrorLine =
      (sinkOf h).countP isExecErrorLine + M ∧
    (sinkOf (c.execIteration L ctx cmd h).2).countP isExecSuccessLine =
      (sinkOf h).countP isExecSuccessLine + (ks.length - M) ∧
    M ≤ ks.length := by
  have hlen := execOutcomes_length c L cmd ks (sweepStart h ks)
  have hsnd : (ks.zip (c.execOutcomes L cmd ks (sweepStart h ks))).map Prod.snd =
      c.execOutcomes L cmd ks (sweepStart h ks) :=
    List.map_snd_zip _ _ (Nat.le_of_eq hlen)
  have hcount := sweepLines_count L cmd (ks.zip (c.execOutcomes L cmd ks (sweepStart h ks)))
  rw [hsnd, hM] at hcount
  have hsplit := List.length_eq_countP_add_countP (fun r => r.2.2.isSome)
    (c.execOutcomes L cmd ks (sweepStart h ks))
  rw [hlen, hM] at hsplit
  have hnone : (c.execOutcomes L cmd ks (sweepStart h ks)).countP (fun r => r.2.2.isNone) =
      ks.length - M := by
    have : (fun r : Int × Option String × Option Err => r.2.2.isNone) =
        fun r => decide ¬(r.2.2.isSome = true) := by
      funext r
      cases r.2.2 <;> simp
    rw [this]
    omega
  rw [execIteration_of_list_ok c L ctx cmd h ks hrun hlist]
  refine ⟨?_, ?_, ?_, ?_⟩
  · rw [execSweep_creates, execCreatesOf_sweepStart]
  · rw [execSweep_sink, sinkOf_sweepStart, List.countP_append, List.countP_append, hcount.1]
    simp [List.countP_cons, isExecErrorLine_countLine]
  · rw [execSweep_sink, sinkOf_sweepStart, List.countP_append, List.countP_append, hcount.2,
      hnone]
    simp [List.countP_cons, isExecSuccessLine_countLine]
  · omega

/-- C1, worked: with three containers of which the second fails its exec, one
turn creates an exec session in each of the three, in order, and writes one
error line and two success lines. -/
theorem exec_sweep_attempts_every_container_witness :
    execCreatesOf ((Client.mk flakyEngine).execIteration sampleLib neverCtx ["echo", "hi"] []).2 =
      [("c1", execCreateConfig ["echo", "hi"]), ("c2", execCreateConfig ["echo", "hi"]),
       ("c3", execCreateConfig ["echo", "hi"])] ∧
    (sinkOf ((Client.mk flakyEngine).execIteration sampleLib neverCtx
      ["echo", "hi"] []).2).countP isExecErrorLine = 1 ∧
    (sinkOf ((Client.mk flakyEngine).execIteration sampleLib neverCtx
      ["echo", "hi"] []).2).countP isExecSuccessLine = 2 :=
  have w := exec_sweep_attempts_every_container (Client.mk flakyEngine) sampleLib neverCtx
    ["echo", "hi"] [] threeContainers 1 rfl rfl (by decide)
  ⟨w.1, w.2.1, w.2.2.1⟩

/-- The lines of a sweep in which every exec succeeded: filtering the success
lines out of them leaves one per container, in order. -/
theorem successLines_filter (L : Lib) (cmd : List String)
    (ps : List (Container × (Int × String))) :
    (ps.flatMap fun p => [foundLine p.1, execSuccessLine L cmd p.1 p.2.1 p.2.2]).filter
        isExecSuccessLine =
      ps.map fun p => execSuccessLine L cmd p.1 p.2.1 p.2.2 := by
  induction ps with
  | nil => rfl
  | cons p ps ih =>
    rw [List.flatMap_cons, List.filter_append, ih]
    simp [List.filter_cons, isExecSuccessLine_foundLine, isExecSuccessLine_execSuccessLine]

/-- The lines of a sweep whose execs all succeeded, from the general form. -/
theorem sweepLines_of_all_ok (L : Lib) (cmd : List String) (ks : List Container)
    (results : List (Int × String)) :
    ((ks.zip (results.map fun r => (r.1, some r.2, (none : Option Err)))).flatMap fun p =>
        [foundLine p.1, execResultLine L cmd p.1 p.2]) =
      (ks.zip results).flatMap fun p =>
        [foundLine p.1, execSuccessLine L cmd p.1 p.2.1 p.2.2] := by
  induction ks generalizing results with
  | nil => simp
  | cons k ks ih =>
    cases results with
    | nil => simp
    | cons r rs =>
      simp only [List.map_cons, List.zip_cons_cons, List.flatMap_cons, ih rs]
      simp [execResultLine, bytesToString]

/-- C7. In a turn of `ExecInActiveContainers` in which the listing yields the
containers `ks` and every `ContainerExec` succeeds, the i-th with exit code and
output `results[i]`: the sink receives the line `found N containers` and then,
for each container in the order of the list, the line announcing it followed by
its success line, which shows the command, the container, the exit code and
the output; the success lines among them are one per container, in that
order; and the exec sessions are created in that same order. -/
theorem exec_sweep_all_succeed (c : Docker.Client) (L : Lib) (ctx : Ctx)
    (cmd : List String) (h : Hist) (ks : List Container) (results : List (Int × String))
    (hrun : ctx (h ++ [Event.sleep sweepInterval]) = false)
    (hlist : c.Client.ContainerList (h ++ [Event.sleep sweepInterval, Event.check false]) {} =
      (ks, none))
    (hok : c.execOutcomes L cmd ks (sweepStart h ks) =
      results.map fun r => (r.1, some r.2, none)) :
    sinkOf (c.execIteration L ctx cmd h).2 =
      sinkOf h ++ ("found " ++ toString ks.length ++ " containers\n") ::
        ((ks.zip results).flatMap fun p =>
          [foundLine p.1, execSuccessLine L cmd p.1 p.2.1 p.2.2]) ∧
    (("found " ++ toString ks.length ++ " containers\n") ::
        ((ks.zip results).flatMap fun p =>
          [foundLine p.1, execSuccessLine L cmd p.1 p.2.1 p.2.2])).filter isExecSuccessLine =
      (ks.zip results).map (fun p => execSuccessLine L cmd p.1 p.2.1 p.2.2) ∧
    (ks.zip results).length = ks.length ∧
    execCreatesOf (c.execIteration L ctx cmd h).2 =
      execCreatesOf h ++ ks.map (fun k => (k.ID, execCreateConfig cmd)) := by
  have hlen : results.length = ks.length := by
    have := execOutcomes_length c L cmd ks (sweepStart h ks)
    rw [hok, List.length_map] at this
    exact this
  rw [execIteration_of_list_ok c L ctx cmd h ks hrun hlist]
  refine ⟨?_, ?_, ?_, ?_⟩
  · rw [execSweep_sink, sinkOf_sweepStart, hok, sweepLines_of_all_ok]
    simp
  · rw [List.filter_cons, isExecSuccessLine_countLine, successLines_filter]
    simp
  · simp [List.length_zip, hlen]
  · rw [execSweep_creates, execCreatesOf_sweepStart]

/-- C7, worked: three containers, the command `echo hi`, every exec exiting
with code 0 after printing `hi`: the sink receives `found 3 containers`, then
for each container its announcement and its success line with rc 0 and text
`hi`. -/
theorem exec_sweep_all_succeed_witness :
    sinkOf ((Client.mk threeEngine).execIteration sampleLib neverCtx ["echo", "hi"] []).2 =
      ["found 3 containers\n",
       "found container c1 running command nginx\n",
       "exec of command [echo hi] into c1 had rc 0 and text hi\n\n",
       "found container c2 running command redis-server\n",
       "exec of command [echo hi] into c2 had rc 0 and text hi\n\n",
       "found container c3 running command sleep 1d\n",
       "exec of command [echo hi] into c3 had rc 0 and text hi\n\n"] ∧
    (sinkOf ((Client.mk threeEngine).execIteration sampleLib neverCtx
        ["echo", "hi"] []).2).filter isExecSuccessLine =
      ["exec of command [echo hi] into c1 had rc 0 and text hi\n\n",
       "exec of command [echo hi] into c2 had rc 0 and text hi\n\n",
       "exec of command [echo hi] into c3 had rc 0 and text hi\n\n"] :=
  have w := exec_sweep_all_succeed (Client.mk threeEngine) sampleLib neverCtx ["echo", "hi"] []
    threeContainers [(0, "hi\n"), (0, "hi\n"), (0, "hi\n")] rfl rfl (by decide)
  ⟨w.1.trans (by decide), by rw [w.1]; decide⟩

/-! ## The inspect sweep: the fallback to the raw JSON -/

theorem inspectSweep_append (c : Docker.Client) (L : Lib) (pre post : List Container)
    (h : Hist) :
    c.inspectSweep L (pre ++ post) h = c.inspectSweep L post (c.inspectSweep L pre h) := by
  simp [Client.inspectSweep, List.foldl_append]

/-- Each container of the inspect sweep is inspected raw, once. -/
theorem inspectBody_rawInspects (c : Docker.Client) (L : Lib) (h : Hist) (k : Container) :
    rawInspectsOf (c.inspectBody L h k) = rawInspectsOf h ++ [k.ID] := by
  unfold Client.inspectBody
  dsimp only
  split
  · simp [rawInspectsOf]
  · split <;> simp [rawInspectsOf]

/-- The inspect sweep inspects every container of the list, in order. -/
theorem inspectSweep_rawInspects (c : Docker.Client) (L : Lib) (ks : List Container)
    (h : Hist) :
    rawInspectsOf (c.inspectSweep L ks h) = rawInspectsOf h ++ ks.map fun k => k.ID := by
  induction ks generalizing h with
  | nil => simp [Client.inspectSweep]
  | cons k ks ih =>
    have hstep : c.inspectSweep L (k :: ks) h = c.inspectSweep L ks (c.inspectBody L h k) := rfl
    rw [hstep, ih, inspectBody_rawInspects]
    simp

/-- C6. In the sweep of `InspectActiveContainers` over `pre ++ k :: post`, when
the raw inspection of `k` succeeds with bytes `b`: if `json.Indent` of `b`
(no prefix, a tab as indent) fails, the sweep writes the line
`inspect of <id> returned raw json <b>` with `b` as it came, and goes on with
the containers of `post`; if it succeeds, the sweep writes the indented text in
the line `inspect of <id> returned formatted json:` and goes on likewise. In
either case every container of the list is inspected, once and in order. -/
theorem inspect_sweep_json_fallback (c : Docker.Client) (L : Lib)
    (pre post : List Container) (k : Container) (h : Hist) (j : ContainerJSON) (b : String)
    (hfetch : c.Client.ContainerInspectWithRaw
      (c.inspectSweep L pre h ++ [Event.write (foundLine k)]) k.ID true = ((j, b), none)) :
    ((L.jsonIndent b "" "\t").2 ≠ none →
      c.inspectSweep L (pre ++ k :: post) h =
        c.inspectSweep L post (c.inspectSweep L pre h ++
          [Event.write (foundLine k), Event.call (Call.ContainerInspectWithRaw k.ID true),
           Event.write ("inspect of " ++ k.ID ++ " returned raw json " ++ b ++ "\n")])) ∧
    ((L.jsonIndent b "" "\t").2 = none →
      c.inspectSweep L (pre ++ k :: post) h =
        c.inspectSweep L post (c.inspectSweep L pre h ++
          [Event.write (foundLine k), Event.call (Call.ContainerInspectWithRaw k.ID true),
           Event.write ("inspect of " ++ k.ID ++ " returned formatted json:\n" ++
             (L.jsonIndent b "" "\t").1 ++ "\n")])) ∧
    rawInspectsOf (c.inspectSweep L (pre ++ k :: post) h) =
      rawInspectsOf h ++ (pre ++ k :: post).map (fun x => x.ID) := by
  have hstep : c.inspectSweep L (pre ++ k :: post) h =
      c.inspectSweep L post (c.inspectBody L (c.inspectSweep L pre h) k) := by
    rw [inspectSweep_append]
    rfl
  simp only [foundLine] at hfetch
  refine ⟨?_, ?_, inspectSweep_rawInspects c L _ h⟩
  · intro hbad
    rw [hstep]
    congr 1
    cases hind : (L.jsonIndent b "" "\t").2 with
    | none => exact absurd hind hbad
    | some e => simp [Client.inspectBody, hfetch, hind, foundLine]
  · intro hgood
    rw [hstep]
    congr 1
    simp [Client.inspectBody, hfetch, hgood, foundLine]

/-- C6, worked: a sweep over three containers of which the first yields
`<html>`, the second cannot be inspected and the third yields `{}`: the first
line on an inspection carries `<html>` as it came, and the two other containers
are still processed. -/
theorem inspect_sweep_json_fallback_witness :
    sinkOf ((Client.mk flakyEngine).inspectSweep sampleLib
        [⟨"c3", "sleep 1d"⟩, ⟨"c2", "redis-server"⟩, ⟨"c1", "nginx"⟩] []) =
      ["found container c3 running command sleep 1d\n",
       "inspect of c3 returned raw json <html>\n",
       "found container c2 running command redis-server\n",
       "container inspect error: no such container\n",
       "found container c1 running command nginx\n",
       "inspect of c1 returned formatted json:\n\x7b\x7d\n"] ∧
    rawInspectsOf ((Client.mk flakyEngine).inspectSweep sampleLib
        [⟨"c3", "sleep 1d"⟩, ⟨"c2", "redis-server"⟩, ⟨"c1", "nginx"⟩] []) =
      ["c3", "c2", "c1"] :=
  have w := inspect_sweep_json_fallback (Client.mk flakyEngine) sampleLib []
    [⟨"c2", "redis-server"⟩, ⟨"c1", "nginx"⟩] ⟨"c3", "sleep 1d"⟩ [] ⟨some ⟨"10.0.0.3"⟩⟩ "<html>" rfl
  ⟨(congrArg sinkOf (w.1 (by decide))).trans (by decide), w.2.2⟩

/-! ## The options of the outbound calls -/

theorem mem_callsOf (call : Call) (h : Hist) : call ∈ callsOf h ↔ Event.call call ∈ h := by
  induction h with
  | nil => simp [callsOf]
  | cons e h ih =>
    have hc : callsOf (e :: h) = callsOf [e] ++ callsOf h := callsOf_append [e] h
    rw [hc, List.mem_append, ih, List.mem_cons]
    cases e <;> simp [callsOf]

/-- The calls among events of the work on the containers are those `P`
admits. -/
theorem calls_of_ofBody (P : Call → Prop) (evs : Hist) (hp : ∀ e ∈ evs, e.ofBody P) :
    ∀ call ∈ callsOf evs, P call :=
  fun call hcall => hp _ ((mem_callsOf call evs).1 hcall)

/-- Every call of a run of the exec loop is a call of a turn with its command. -/
theorem ExecInActiveContainers_calls (c : Docker.Client) (L : Lib) (ctx : Ctx)
    (cmd : List String) (fuel : Nat) (h : Hist) :
    ∃ evs, (c.ExecInActiveContainers L ctx cmd fuel h).2 = h ++ evs ∧
      ∀ call ∈ callsOf evs, call.ofExecTurn cmd := by
  induction fuel generalizing h with
  | zero => exact ⟨[], by simp [Client.ExecInActiveContainers], by simp [callsOf]⟩
  | succ n ih =>
    cases hc : ctx (h ++ [Event.sleep sweepInterval])
    · obtain ⟨evs1, hev, hp⟩ := execIteration_events c L ctx cmd h hc
      obtain ⟨evs2, h2, hp2⟩ := ih (h ++ Event.sleep sweepInterval :: Event.check false :: evs1)
      refine ⟨(Event.sleep sweepInterval :: Event.check false :: evs1) ++ evs2, ?_, ?_⟩
      · rw [ExecInActiveContainers_succ_of_running c L ctx cmd n h (by rw [hev]), hev, h2,
          List.append_assoc]
      · intro call hcall
        rw [callsOf_append, List.mem_append] at hcall
        rcases hcall with hcall | hcall
        · have hcons : callsOf (Event.sleep sweepInterval :: Event.check false :: evs1) =
              callsOf evs1 := rfl
          rw [hcons] at hcall
          exact calls_of_ofBody _ evs1 hp call hcall
        · exact hp2 call hcall
    · rw [ExecInActiveContainers_succ_of_done c L ctx cmd n h hc]
      exact ⟨[Event.sleep sweepInterval, Event.check true], rfl, by simp [callsOf]⟩

/-- Every call of a run of the inspect loop is a call of one of its turns. -/
theorem InspectActiveContainers_calls (c : Docker.Client) (L : Lib) (ctx : Ctx)
    (fuel : Nat) (h : Hist) :
    ∃ evs, (c.InspectActiveContainers L ctx fuel h).2 = h ++ evs ∧
      ∀ call ∈ callsOf evs, call.ofInspectTurn := by
  induction fuel generalizing h with
  | zero => exact ⟨[], by simp [Client.InspectActiveContainers], by simp [callsOf]⟩
  | succ n ih =>
    cases hc : ctx (h ++ [Event.sleep sweepInterval])
    · obtain ⟨evs1, hev, hp⟩ := inspectIteration_events c L ctx h hc
      obtain ⟨evs2, h2, hp2⟩ := ih (h ++ Event.sleep sweepInterval :: Event.check false :: evs1)
      refine ⟨(Event.sleep sweepInterval :: Event.check false :: evs1) ++ evs2, ?_, ?_⟩
      · rw [InspectActiveContainers_succ_of_running c L ctx n h (by rw [hev]), hev, h2,
          List.append_assoc]
      · intro call hcall
        rw [callsOf_append, List.mem_append] at hcall
        rcases hcall with hcall | hcall
        · have hcons : callsOf (Event.sleep sweepInterval :: Event.check false :: evs1) =
              callsOf evs1 := rfl
          rw [hcons] at hcall
          exact calls_of_ofBody _ evs1 hp call hcall
        · exact hp2 call hcall
    · rw [InspectActiveContainers_succ_of_done c L ctx n h hc]
      exact ⟨[Event.sleep sweepInterval, Event.check true], rfl, by simp [callsOf]⟩

/-- What each operation adds to the history: calls of the form it makes. -/
theorem Op.run_calls (c : Docker.Client) (L : Lib) (ctx : Ctx) (op : Op) (h : Hist) :
    ∃ evs, op.run c L ctx h = h ++ evs ∧ ∀ call ∈ callsOf evs, op.makes call := by
  cases op with
  | ContainerList => exact ⟨[_], rfl, by simp [callsOf, Op.makes]⟩
  | ContainerCreate config hostconfig => exact ⟨[_], rfl, by simp [callsOf, Op.makes]⟩
  | ContainerExec id cmd =>
    obtain ⟨evs, hev, hp, -, -⟩ := ContainerExec_events c id cmd h
    exact ⟨evs, hev, calls_of_ofBody _ evs hp⟩
  | ContainerInspect id =>
    show ∃ evs, (c.ContainerInspect id h).2 = h ++ evs ∧ _
    unfold Client.ContainerInspect
    dsimp only
    split
    · exact ⟨[_], rfl, by simp [callsOf, Op.makes]⟩
    · split <;> exact ⟨[_], rfl, by simp [callsOf, Op.makes]⟩
  | ContainerStart id => exact ⟨[_], rfl, by simp [callsOf, Op.makes]⟩
  | ContainerLogs id =>
    show ∃ evs, (c.ContainerLogs id h).2 = h ++ evs ∧ _
    unfold Client.ContainerLogs
    dsimp only
    split
    · exact ⟨[_], rfl, by simp [callsOf, Op.makes]⟩
    · exact ⟨[_, _], by simp only [List.append_assoc]; rfl, by simp [callsOf, Op.makes]⟩
  | ContainerRemove id => exact ⟨[_], rfl, by simp [callsOf, Op.makes]⟩
  | ContainerStop id timeout => exact ⟨[_], rfl, by simp [callsOf, Op.makes]⟩
  | ContainerStopAndRemove id timeout =>
    show ∃ evs, (c.ContainerStopAndRemove id timeout h).2 = h ++ evs ∧ _
    unfold Client.ContainerStopAndRemove Client.ContainerStop Client.ContainerRemove
    dsimp only
    split
    · exact ⟨[_], rfl, by simp [callsOf, Op.makes]⟩
    · exact ⟨[_, _], by simp only [List.append_assoc]; rfl, by simp [callsOf, Op.makes]⟩
  | ContainerWait id => exact ⟨[_], rfl, by simp [callsOf, Op.makes]⟩
  | ImageRemove name => exact ⟨[_], rfl, by simp [callsOf, Op.makes]⟩
  | VolumeCreate => exact ⟨[_], rfl, by simp [callsOf, Op.makes]⟩
  | VolumeRemove name => exact ⟨[_], rfl, by simp [callsOf, Op.makes]⟩
  | ExecInActiveContainers cmd fuel => exact ExecInActiveContainers_calls c L ctx cmd fuel h
  | InspectActiveContainers fuel => exact InspectActiveContainers_calls c L ctx fuel h

/-- A call of the form an operation makes carries zero-valued options, or is
one of the three exceptions. -/
theorem Op.makes_options (op : Op) (call : Call) (hm : op.makes call) :
    call.defaultOptions ∨ call.isStdoutExecCreate ∨ call.isStdStreamsLogs ∨
      call.isSizedRawInspect := by
  cases op <;> cases call <;>
    simp_all [Op.makes, Call.ofExec, Call.ofExecTurn, Call.ofInspectTurn, Call.defaultOptions,
      Call.isStdoutExecCreate, Call.isStdStreamsLogs, Call.isSizedRawInspect, execCreateConfig]

/-- C8, as the code has it. Every call an operation of the wrapper adds to the
history is of the form `Op.makes` gives for that operation and its arguments:
a stop carries the caller's container and timeout, a create the caller's
configurations with no networking configuration and no name, an exec session
is created in the given container with `AttachStdout` set, the given command
and nothing else, in `ContainerExec` as in the turns of the exec loop. Each
such call carries zero-valued options, with three exceptions: that creation of
an exec session; the request for logs, which sets `ShowStdout` and
`ShowStderr`; and the raw inspection of the inspect sweep, which asks for
sizes. -/
theorem outbound_calls_as_wrapper_makes (c : Docker.Client) (L : Lib) (ctx : Ctx) (op : Op)
    (h : Hist) :
    ∃ evs, op.run c L ctx h = h ++ evs ∧
      ∀ call ∈ callsOf evs, op.makes call ∧
        (call.defaultOptions ∨ call.isStdoutExecCreate ∨ call.isStdStreamsLogs ∨
          call.isSizedRawInspect) := by
  obtain ⟨evs, hev, hp⟩ := Op.run_calls c L ctx op h
  exact ⟨evs, hev, fun call hcall => ⟨hp call hcall, Op.makes_options op call (hp call hcall)⟩⟩

/-- C8, worked: the calls of four operations from the empty history. The stop
carries the caller's timeout; the logs are asked for with both streams; a turn
of the exec loop over three containers creates each exec session with the
command it was given; a turn of the inspect loop asks each raw inspection for
sizes. The theorem, at the first of them, says the same of whatever the stop
adds. -/
theorem outbound_calls_as_wrapper_makes_witness :
    callsOf (Op.run (Client.mk quietEngine) sampleLib neverCtx
        (Op.ContainerStop "c1" (some 5000000000)) []) =
      [Call.ContainerStop "c1" (some 5000000000)] ∧
    callsOf (Op.run (Client.mk quietEngine) sampleLib neverCtx (Op.ContainerLogs "c1") []) =
      [Call.ContainerLogs "c1" { ShowStdout := true, ShowStderr := true }] ∧
    execCreatesOf (Op.run (Client.mk threeEngine) sampleLib neverCtx
        (Op.ExecInActiveContainers ["echo", "hi"] 1) []) =
      [("c1", { AttachStdout := true, Cmd := ["echo", "hi"] }),
       ("c2", { AttachStdout := true, Cmd := ["echo", "hi"] }),
       ("c3", { AttachStdout := true, Cmd := ["echo", "hi"] })] ∧
    callsOf (Op.run (Client.mk threeEngine) sampleLib neverCtx
        (Op.InspectActiveContainers 1) []) =
      [Call.ContainerList {}, Call.ContainerInspectWithRaw "c1" true,
       Call.ContainerInspectWithRaw "c2" true, Call.ContainerInspectWithRaw "c3" true] ∧
    ∃ evs, Op.run (Client.mk quietEngine) sampleLib neverCtx
        (Op.ContainerStop "c1" (some 5000000000)) [] = [] ++ evs ∧
      ∀ call ∈ callsOf evs, (Op.ContainerStop "c1" (some 5000000000)).makes call ∧
        (call.defaultOptions ∨ call.isStdoutExecCreate ∨ call.isStdStreamsLogs ∨
          call.isSizedRawInspect) :=
  ⟨by decide, by decide, by decide, by decide,
    outbound_calls_as_wrapper_makes (Client.mk quietEngine) sampleLib neverCtx
      (Op.ContainerStop "c1" (some 5000000000)) []⟩

/-- C8, as the specification words it, fails: the call that fetches logs sets
`ShowStdout` and `ShowStderr`, and the raw inspection of the inspect sweep asks
for sizes; neither carries default options, and neither creates an exec
session. -/
theorem outbound_calls_not_all_default :
    (¬ ∀ call ∈ callsOf (Op.run (Client.mk quietEngine) sampleLib neverCtx
        (Op.ContainerLogs "c1") []), call.asSpecified) ∧
    (¬ ∀ call ∈ callsOf (Op.run (Client.mk threeEngine) sampleLib neverCtx
        (Op.InspectActiveContainers 1) []), call.asSpecified) := by
  constructor
  · intro hall
    have hmem : Call.ContainerLogs "c1" { ShowStdout := true, ShowStderr := true } ∈
        callsOf (Op.run (Client.mk quietEngine) sampleLib neverCtx (Op.ContainerLogs "c1") []) :=
      by decide
    exact absurd (hall _ hmem) (by decide)
  · intro hall
    have hmem : Call.ContainerInspectWithRaw "c1" true ∈
        callsOf (Op.run (Client.mk threeEngine) sampleLib neverCtx
          (Op.InspectActiveContainers 1) []) := by decide
    exact absurd (hall _ hmem) (by decide)

end Docker
